import Mathlib

/-!
# Verification of the gtask CLI core

A shallow embedding of the gtask command-line task manager (Go) and proofs
about its core mechanisms: the reference parser, the list-letter mapper,
the paginated task locator with its per-invocation page cache, the command
registry, and the dispatcher's flag-parsing and auth-gating phases.

Go strings are modelled as Lean `String` (sequences of characters); Go `int`
and `rune` values are modelled as `Int`/`Nat` with Go's truncated division
semantics made explicit.  Fallible Go functions returning `(T, error)` are
modelled as `Except`-valued Lean functions.  Functions whose behaviour
depends on the external task-source capability take the backend data (or a
pure model `Svc` of the `service.Service` interface) as an argument, and the
command bodies additionally return the list of service calls they issued, so
that call-counting properties (caching, "no deletion before resolution") can
be stated.
-/

namespace GTask

/-- service.Task (src/unnamed/part_004). -/
structure Task where
  id : String
  title : String
  position : String
  status : String
deriving DecidableEq, Repr

/-- service.TaskList (src/unnamed/part_004). -/
structure TaskList where
  id : String
  title : String
  isDefault : Bool
deriving DecidableEq, Repr

/-- Exit codes from internal/exitcode (values embedded in commands_test.go). -/
def exitSuccess : Nat := 0

/-- exitcode.UserError. -/
def exitUserError : Nat := 1

/-- exitcode.AuthError. -/
def exitAuthError : Nat := 2

/-- exitcode.BackendError. -/
def exitBackendError : Nat := 3

/-- Go integer division `/`: truncated toward zero (T-division). -/
def goDiv (a b : Int) : Int := Int.tdiv a b

/-- Go integer remainder `%`: sign follows the dividend (T-modulus). -/
def goMod (a b : Int) : Int := Int.tmod a b

/-- `startsWithChars l p`: the character list `l` starts with `p`. -/
def startsWithChars : List Char → List Char → Bool
  | _, [] => true
  | [], _ :: _ => false
  | a :: as, b :: bs => a = b && startsWithChars as bs

/-- `containsChars sub l`: `sub` occurs contiguously inside `l`. -/
def containsChars (sub : List Char) : List Char → Bool
  | [] => startsWithChars [] sub
  | l@(_ :: t) => startsWithChars l sub || containsChars sub t

/-- Go strings.Contains(s, sub). -/
def goContains (s sub : String) : Bool := containsChars sub.toList s.toList

/-- Go strings.HasPrefix(s, sub). -/
def goStartsWith (s sub : String) : Bool := startsWithChars s.toList sub.toList

/-! ## The paginated task locator

`findTaskByNumber` is from src/internal/commands/done.go (lines 104-120) and
`findTaskByNumberCached` from src/internal/commands/tasklookup.go (lines
14-42).  The backend is abstracted as a fetch function
`listID → page → Except String (List Task)` standing for
`svc.ListOpenTasks`; an error value is the backend error string.  The Go
slice access `tasks[indexInPage]` panics when the index is negative (the
`indexInPage >= len(tasks)` guard only excludes too-large indices), which
the embedding records as a distinct `LocError.indexPanic` outcome. -/

/-- Outcomes of the locator other than finding the task. -/
inductive LocError where
  /-- fmt.Errorf("task number out of range: %d", num). -/
  | outOfRange (num : Int)
  /-- Go runtime panic: `tasks[indexInPage]` with a negative index. -/
  | indexPanic (num : Int)
  /-- Error propagated from svc.ListOpenTasks. -/
  | backend (msg : String)
deriving DecidableEq, Repr

/-- The fixed page size of the locator. -/
def pageSize : Int := 100

/-- `page := (num-1)/pageSize + 1` with Go division (done.go, tasklookup.go). -/
def locPage (num : Int) : Int := goDiv (num - 1) pageSize + 1

/-- `indexInPage := (num-1) % pageSize` with Go remainder. -/
def locIndex (num : Int) : Int := goMod (num - 1) pageSize

/-- The tail of both locators after the page's tasks are in hand: the bounds
check `indexInPage >= len(tasks)` and the slice access `tasks[indexInPage]`
(which panics on a negative index). -/
def pickTask (num : Int) (tasks : List Task) : Except LocError Task :=
  if hge : (tasks.length : Int) ≤ locIndex num then .error (.outOfRange num)
  else if h : 0 ≤ locIndex num then .ok (tasks.get ⟨(locIndex num).toNat, by omega⟩)
  else .error (.indexPanic num)

/-- findTaskByNumber (done.go): locate the task with 1-based number `num`
in list `listID`, fetching the single page that must contain it. -/
def findTaskByNumber (fetch : String → Int → Except String (List Task))
    (listID : String) (num : Int) : Except LocError Task :=
  match fetch listID (locPage num) with
  | .error e => .error (.backend e)
  | .ok tasks => pickTask num tasks

/-- The per-invocation page cache (`taskPageCache`), keyed by
(listID, page).  The Go implementation is a two-level map
`listID → page → []Task`; an association list on the pair key has the same
lookup/store behaviour. -/
def TaskPageCache : Type := List ((String × Int) × List Task)

/-- Cache lookup: `cache[listID][page]`. -/
def cacheFind (cache : TaskPageCache) (listID : String) (page : Int) :
    Option (List Task) :=
  List.lookup (listID, page) cache

/-- Cache store on a miss: `cache[listID][page] = tasks`. -/
def cacheStore (cache : TaskPageCache) (listID : String) (page : Int)
    (tasks : List Task) : TaskPageCache :=
  ((listID, page), tasks) :: cache

/-- The cache-or-fetch step of findTaskByNumberCached (tasklookup.go lines
27-35): return the page's tasks from the cache on a hit, otherwise fetch
and store.  Alongside the tasks it returns the updated cache and - as ghost
instrumentation for call counting - the list of (listID, page) pairs
actually fetched from the backend. -/
def getPage (fetch : String → Int → Except String (List Task))
    (listID : String) (page : Int) (cache : TaskPageCache) :
    Except String (List Task × TaskPageCache × List (String × Int)) :=
  match cacheFind cache listID page with
  | some tasks => .ok (tasks, cache, [])
  | none =>
    match fetch listID page with
    | .error e => .error e
    | .ok tasks => .ok (tasks, cacheStore cache listID page tasks, [(listID, page)])

/-- findTaskByNumberCached (tasklookup.go): like `findTaskByNumber` but
consulting the page cache first and storing fetched pages. -/
def findTaskByNumberCached (fetch : String → Int → Except String (List Task))
    (listID : String) (num : Int) (cache : TaskPageCache) :
    Except LocError Task × TaskPageCache × List (String × Int) :=
  match getPage fetch listID (locPage num) cache with
  | .error e => (.error (.backend e), cache, [(listID, locPage num)])
  | .ok (tasks, cache2, fetched) => (pickTask num tasks, cache2, fetched)

/-- The backend page fetch for a single list whose full sequence of open
tasks (in provider order) is `ts`: page `p` is the 1-based slice of 100
tasks starting at position (p-1)*100, the empty slice past the end
(service.Service documents: "Returns empty slice if page is out of
range"). -/
def openTasksPage (ts : List Task) (page : Int) : List Task :=
  if page < 1 then []
  else (ts.drop ((page.toNat - 1) * 100)).take 100

/-- A fetch function for a single fixed list with task sequence `ts`:
every list id answers with `ts`'s pages and no backend errors. -/
def pureFetch (ts : List Task) : String → Int → Except String (List Task) :=
  fun _ page => .ok (openTasksPage ts page)

instance {ε α : Type} [DecidableEq ε] [DecidableEq α] : DecidableEq (Except ε α)
  | .error e, .error f =>
    if h : e = f then .isTrue (by rw [h])
    else .isFalse (by intro c; injection c; contradiction)
  | .error _, .ok _ => .isFalse (fun c => Except.noConfusion c)
  | .ok _, .error _ => .isFalse (fun c => Except.noConfusion c)
  | .ok a, .ok b =>
    if h : a = b then .isTrue (by rw [h])
    else .isFalse (by intro c; injection c; contradiction)

/-- The cache is consistent with the backend: every cached page is exactly
what the fetch function returns for that key.  Holds for the empty cache a
command invocation starts with, and is preserved by the locator. -/
def CacheConsistent (fetch : String → Int → Except String (List Task))
    (cache : TaskPageCache) : Prop :=
  ∀ l p ts, cacheFind cache l p = some ts → fetch l p = .ok ts

/-- The reference-resolution loop of RmCmd.Run (taskref.go lines 274-305)
restricted to its locator calls: resolve a sequence of (listID, number)
requests left-to-right against one shared page cache, stopping at the
first failure.  Returns the resolved tasks, the final cache, and the
concatenated fetch log. -/
def resolveSeq (fetch : String → Int → Except String (List Task)) :
    List (String × Int) → TaskPageCache →
    Except LocError (List Task) × TaskPageCache × List (String × Int)
  | [], cache => (.ok [], cache, [])
  | q :: qs, cache =>
    match findTaskByNumberCached fetch q.1 q.2 cache with
    | (.error e, cache2, log) => (.error e, cache2, log)
    | (.ok t, cache2, log) =>
      match resolveSeq fetch qs cache2 with
      | (.error e, cache3, log2) => (.error e, cache3, log ++ log2)
      | (.ok rest, cache3, log2) => (.ok (t :: rest), cache3, log ++ log2)

/-- The same sequence of resolutions, each served by a fresh uncached
fetch (`findTaskByNumber`), stopping at the first failure. -/
def fetchSeqFresh (fetch : String → Int → Except String (List Task)) :
    List (String × Int) → Except LocError (List Task)
  | [] => .ok []
  | q :: qs =>
    match findTaskByNumber fetch q.1 q.2 with
    | .error e => .error e
    | .ok t =>
      match fetchSeqFresh fetch qs with
      | .error e => .error e
      | .ok rest => .ok (t :: rest)

/-- A sample task used for concrete counterexamples and witnesses. -/
def tMilk : Task := ⟨"t1", "buy milk", "0001", "needsAction"⟩

/-- A second sample task. -/
def tBread : Task := ⟨"t2", "buy bread", "0002", "needsAction"⟩

/-! ## The reference parser

From src/internal/commands/taskref.go (ParseTaskRef, lines 32-82; with the
separated two-token form) and src/unnamed/part_006 (ParseTaskRefs, the
batch single-token grammar). -/

/-- TaskRef: `Letter` is the rune 0 when no letter was given. -/
structure TaskRef where
  Letter : Char
  TaskNum : Int
  HasLetter : Bool
deriving DecidableEq, Repr

/-- The reference parser's failures: ErrTaskRefRequired, or
fmt.Errorf("invalid task reference: %s", tok). -/
inductive ParseErr where
  | required
  | invalid (tok : String)
deriving DecidableEq, Repr

/-- ASCII decimal digit.  unicode.IsDigit also accepts non-ASCII decimal
digit runes, but on any token containing one strconv.Atoi subsequently
fails, so the parser rejects the token on either reading; restricting the
digit test to ASCII leaves every parse outcome unchanged. -/
def isGoDigit (c : Char) : Bool := '0' ≤ c && c ≤ '9'

/-- isAllDigits (taskref.go): non-empty and all digits. -/
def isAllDigits (s : String) : Bool := s ≠ "" && s.toList.all isGoDigit

/-- isLetter (taskref.go): lowercase ASCII letter a-z. -/
def isLetter (c : Char) : Bool := 'a' ≤ c && c ≤ 'z'

/-- Decimal value of a digit sequence. -/
def digitsVal (l : List Char) : Nat := l.foldl (fun a c => a * 10 + (c.toNat - 48)) 0

/-- strconv.Atoi restricted to the all-digit tokens this parser feeds it:
the (nonnegative) decimal value, unless it overflows the 64-bit int
range.  Callers cast the value into the `Int` TaskNum field. -/
def goAtoi (s : String) : Except Unit Nat :=
  if isAllDigits s then
    if digitsVal s.toList < 2 ^ 63 then .ok (digitsVal s.toList)
    else .error ()
  else .error ()

/-- ParseTaskRef (taskref.go lines 32-82): parse one task reference from
the argument list, accepting `<digits>`, `<letter><digits>` and the
separated two-token form `<letter> <digits>`. -/
def ParseTaskRef (args : List String) : Except ParseErr TaskRef :=
  match args with
  | [] => .error .required
  | firstArg :: rest =>
    if isAllDigits firstArg then
      match goAtoi firstArg with
      | .error _ => .error (.invalid firstArg)
      | .ok num => .ok ⟨Char.ofNat 0, (num : Int), false⟩
    else
      match firstArg.toList with
      | [] => .error (.invalid firstArg)
      | letter :: tail =>
        if isLetter letter then
          if tail ≠ [] && isAllDigits (String.mk tail) then
            match goAtoi (String.mk tail) with
            | .error _ => .error (.invalid firstArg)
            | .ok num => .ok ⟨letter, (num : Int), true⟩
          else if tail = [] then
            match rest with
            | [] => .error .required
            | secondArg :: _ =>
              if isAllDigits secondArg then
                match goAtoi secondArg with
                | .error _ => .error (.invalid secondArg)
                | .ok num => .ok ⟨letter, (num : Int), true⟩
              else .error (.invalid firstArg)
          else .error (.invalid firstArg)
        else .error (.invalid firstArg)

/-- The scanning loop of ParseTaskRefs (part_006 lines 38-72): one token
per reference, `<digits>` or `<letter><digits>` only. -/
def parseRefsLoop : List String → Except ParseErr (List TaskRef)
  | [] => .ok []
  | token :: rest =>
    if isAllDigits token then
      match goAtoi token with
      | .error _ => .error (.invalid token)
      | .ok num =>
        match parseRefsLoop rest with
        | .error e => .error e
        | .ok refs => .ok (⟨Char.ofNat 0, (num : Int), false⟩ :: refs)
    else
      match token.toList with
      | [] => .error (.invalid token)
      | letter :: tail =>
        if isLetter letter then
          if tail ≠ [] then
            if !isAllDigits (String.mk tail) then .error (.invalid token)
            else
              match goAtoi (String.mk tail) with
              | .error _ => .error (.invalid token)
              | .ok num =>
                match parseRefsLoop rest with
                | .error e => .error e
                | .ok refs => .ok (⟨letter, (num : Int), true⟩ :: refs)
          else .error (.invalid token)
        else .error (.invalid token)

/-- ParseTaskRefs (part_006 lines 32-75): batch parse, left-to-right. -/
def ParseTaskRefs (args : List String) : Except ParseErr (List TaskRef) :=
  if args = [] then .error .required else parseRefsLoop args

/-! ## The task-source capability and the list-letter mapper -/

/-- A pure model of the service.Service interface (src/unnamed/part_003):
each operation returns its result or a backend error string. -/
structure Svc where
  defaultList : Except String TaskList
  listLists : Except String (List TaskList)
  resolveList : String → Except String TaskList
  listOpenTasks : String → Int → Except String (List Task)
  hasOpenTasks : String → Except String Bool
  completeTask : String → String → Except String Unit
  deleteTask : String → String → Except String Unit

/-- One call issued against the task-source capability (ghost log entry). -/
inductive SvcCall where
  | defaultList
  | listLists
  | resolveList (name : String)
  | listOpenTasks (listID : String) (page : Int)
  | hasOpenTasks (listID : String)
  | completeTask (listID taskID : String)
  | deleteTask (listID taskID : String)
deriving DecidableEq, Repr

/-- Failures of BuildListLetterMap: the ErrTooManyLists sentinel (compared
by identity in RmCmd.Run) or a propagated backend error. -/
inductive BuildErr where
  | tooMany
  | backend (msg : String)
deriving DecidableEq, Repr

/-- Go rune increment `letter++`. -/
def nextChar (c : Char) : Char := Char.ofNat (c.toNat + 1)

/-- The loop of BuildListLetterMap (part_006 lines 147-166): walk the lists
in order, skip the default list and lists without open tasks, assign the
current letter to each remaining list, failing with ErrTooManyLists past
'z'.  Also returns the ghost list of service calls made. -/
def buildLetterLoop (svc : Svc) (letter : Char) (acc : List (Char × TaskList)) :
    List TaskList → Except BuildErr (List (Char × TaskList)) × List SvcCall
  | [] => (.ok acc, [])
  | l :: ls =>
    if l.isDefault then buildLetterLoop svc letter acc ls
    else
      match svc.hasOpenTasks l.id with
      | .error e => (.error (.backend e), [.hasOpenTasks l.id])
      | .ok false =>
        let r := buildLetterLoop svc letter acc ls
        (r.1, .hasOpenTasks l.id :: r.2)
      | .ok true =>
        if 'z' < letter then (.error .tooMany, [.hasOpenTasks l.id])
        else
          let r := buildLetterLoop svc (nextChar letter) (acc ++ [(letter, l)]) ls
          (r.1, .hasOpenTasks l.id :: r.2)

/-- BuildListLetterMap (part_006 lines 138-169).  The Go map keyed by rune
is modelled as the association list of (letter, list) pairs in assignment
order; the inserted keys are distinct, so lookups agree with the map. -/
def BuildListLetterMap (svc : Svc) :
    Except BuildErr (List (Char × TaskList)) × List SvcCall :=
  match svc.listLists with
  | .error e => (.error (.backend e), [.listLists])
  | .ok lists =>
    let r := buildLetterLoop svc 'a' [] lists
    (r.1, .listLists :: r.2)

/-- The scanning loop of ResolveListByLetter
(src/internal/commands/taskref.go lines 111-135): advance a letter cursor
over the eligible lists, returning the list whose cursor position matches
the requested letter; breaking out (and reporting letter-not-found) once
the cursor would pass 'z'. -/
def resolveLetterLoop (svc : Svc) (letter currentLetter : Char) :
    List TaskList → Except String TaskList × List SvcCall
  | [] => (.error ("list letter not found: " ++ String.singleton letter), [])
  | l :: ls =>
    if l.isDefault then resolveLetterLoop svc letter currentLetter ls
    else
      match svc.hasOpenTasks l.id with
      | .error e => (.error e, [.hasOpenTasks l.id])
      | .ok hasOpen =>
        if !hasOpen then
          let r := resolveLetterLoop svc letter currentLetter ls
          (r.1, .hasOpenTasks l.id :: r.2)
        else if currentLetter = letter then (.ok l, [.hasOpenTasks l.id])
        else if 'z' < nextChar currentLetter then
          (.error ("list letter not found: " ++ String.singleton letter),
            [.hasOpenTasks l.id])
        else
          let r := resolveLetterLoop svc letter (nextChar currentLetter) ls
          (r.1, .hasOpenTasks l.id :: r.2)

/-- ResolveListByLetter (taskref.go lines 105-138): the single-letter
lookup path, which scans with a cursor instead of building the map. -/
def ResolveListByLetter (svc : Svc) (letter : Char) :
    Except String TaskList × List SvcCall :=
  match svc.listLists with
  | .error e => (.error e, [.listLists])
  | .ok lists =>
    let r := resolveLetterLoop svc letter 'a' lists
    (r.1, .listLists :: r.2)

/-- A backend exposing a fixed ordered list collection and a pure
has-open-tasks predicate; the other operations are unused by the
list-letter mapper. -/
def pureSvcLists (lists : List TaskList) (hasOpen : String → Bool) : Svc where
  defaultList := .error "unused"
  listLists := .ok lists
  resolveList := fun _ => .error "unused"
  listOpenTasks := fun _ _ => .ok []
  hasOpenTasks := fun id => .ok (hasOpen id)
  completeTask := fun _ _ => .ok ()
  deleteTask := fun _ _ => .ok ()

/-- The letters 'a'+i for i < k, starting at offset `i0`: the sequence the
spec says the mapper assigns. -/
def letterRangeFrom (i0 k : Nat) : List Char :=
  (List.range k).map (fun j => Char.ofNat (97 + i0 + j))

/-- The non-default lists that currently have open tasks, in collection
order: exactly the lists the spec says receive letters. -/
def eligibleLists (lists : List TaskList) (hasOpen : String → Bool) : List TaskList :=
  lists.filter (fun l => !l.isDefault && hasOpen l.id)

/-- The TaskReference invariant of the spec data model, weakened to what
the parser establishes: the number is nonnegative (not necessarily ≥ 1),
the letter is the zero rune when absent, and a lowercase letter when
present. -/
def refInvariant (ref : TaskRef) : Prop :=
  0 ≤ ref.TaskNum ∧
  (ref.HasLetter = false → ref.Letter = Char.ofNat 0) ∧
  (ref.HasLetter = true → isLetter ref.Letter = true)

/-- A collection of 27 distinct non-default lists, all with open tasks. -/
def lists27 : List TaskList :=
  (List.range 27).map (fun i => ⟨"id" ++ toString i, "L" ++ toString i, false⟩)

/-! ## The list command (src/unnamed/part_008, ListCmd.listAll)

Rendering is out of core scope; each call into the output package is
recorded as an abstract output event, in emission order. -/

/-- One line written to standard output by the list-everything flow. -/
inductive OutEvent where
  /-- output.FormatTask(out, num, task): a default-list task line. -/
  | task (num : Nat) (t : Task)
  /-- output.FormatListHeader(out, title, isDefault). -/
  | header (title : String) (isDefault : Bool)
  /-- output.FormatTaskWithLetter(out, letter, num, task). -/
  | taskWithLetter (letter : Char) (num : Nat) (t : Task)
  /-- The "no tasks found" line. -/
  | noTasks
deriving DecidableEq, Repr

/-- The observable result of the list-everything flow: the stdout events,
the stderr lines, and the exit code. -/
structure ListRunRes where
  out : List OutEvent
  err : List String
  exit : Nat
deriving DecidableEq, Repr

/-- The named-lists loop of ListCmd.listAll (part_008 lines 90-120): print
each non-default list with open tasks under the next letter; a fetch
failure ends the run with the failure line on stderr, preserving the
events already emitted (they are accumulated in front of this loop's
output by the caller). -/
def listAllLoop (svc : Svc) (quiet : Bool) (letter : Char) (hasAny : Bool) :
    List TaskList → ListRunRes
  | [] =>
    ⟨if hasAny = false && quiet = false then [.noTasks] else [], [], exitSuccess⟩
  | l :: ls =>
    if l.isDefault then listAllLoop svc quiet letter hasAny ls
    else
      match svc.listOpenTasks l.id 1 with
      | .error e =>
        ⟨[], ["error: failed to fetch list: " ++ l.title ++ ": " ++ e], exitBackendError⟩
      | .ok tasks =>
        if tasks.length = 0 then listAllLoop svc quiet letter hasAny ls
        else if 'z' < letter then
          ⟨[], ["error: too many lists (max 26)"], exitUserError⟩
        else
          let events := OutEvent.header l.title false ::
            tasks.enum.map (fun p => OutEvent.taskWithLetter letter (p.1 + 1) p.2)
          let r := listAllLoop svc quiet (nextChar letter) true ls
          ⟨events ++ r.out, r.err, r.exit⟩

/-- ListCmd.listAll (part_008 lines 60-128): default list first (page 1,
no header), then every named list with open tasks lettered a, b, ... -/
def listAll (svc : Svc) (quiet : Bool) : ListRunRes :=
  match svc.defaultList with
  | .error e => ⟨[], ["error: backend error: " ++ e], exitBackendError⟩
  | .ok dl =>
    match svc.listOpenTasks dl.id 1 with
    | .error e => ⟨[], ["error: backend error: " ++ e], exitBackendError⟩
    | .ok dts =>
      let defEvents := dts.enum.map (fun p => OutEvent.task (p.1 + 1) p.2)
      match svc.listLists with
      | .error e => ⟨defEvents, ["error: backend error: " ++ e], exitBackendError⟩
      | .ok lists =>
        let r := listAllLoop svc quiet 'a' (!dts.isEmpty) lists
        ⟨defEvents ++ r.out, r.err, r.exit⟩

/-- The stdout events the loop emits for a prefix of named lists when all
their fetches succeed: the expected preserved output before a failure. -/
def renderNamed (svc : Svc) (letter : Char) : List TaskList → List OutEvent
  | [] => []
  | l :: ls =>
    if l.isDefault then renderNamed svc letter ls
    else
      match svc.listOpenTasks l.id 1 with
      | .error _ => []
      | .ok tasks =>
        if tasks.length = 0 then renderNamed svc letter ls
        else
          (OutEvent.header l.title false ::
            tasks.enum.map (fun p => OutEvent.taskWithLetter letter (p.1 + 1) p.2)) ++
          renderNamed svc (nextChar letter) ls

/-- How many of the given lists are non-default and successfully fetch a
non-empty page of open tasks: the lists that consume a letter. -/
def countOpenNamed (svc : Svc) (ls : List TaskList) : Nat :=
  (ls.filter (fun l => !l.isDefault &&
    (match svc.listOpenTasks l.id 1 with
      | .ok ts => !ts.isEmpty
      | .error _ => false))).length

/-- A concrete backend for the list-everything witness: the default list
has one task, "Shopping" has one task, and fetching "Broken" fails. -/
def svcC7 : Svc where
  defaultList := .ok ⟨"d", "Default", true⟩
  listLists := .ok [⟨"d", "Default", true⟩, ⟨"s", "Shopping", false⟩, ⟨"x", "Broken", false⟩]
  resolveList := fun _ => .error "unused"
  listOpenTasks := fun id _ =>
    if id = "d" then .ok [tMilk]
    else if id = "s" then .ok [tBread]
    else .error "boom"
  hasOpenTasks := fun _ => .ok true
  completeTask := fun _ _ => .ok ()
  deleteTask := fun _ _ => .ok ()

/-! ## The done and rm command bodies

DoneCmd.Run from src/internal/commands/done.go (lines 160-242) and
RmCmd.Run from src/internal/commands/taskref.go (lines 178-318).  Both are
modelled as pure functions of the parsed flag values, the backend model
and the positional arguments, returning the observable run result plus the
ordered ghost log of service calls. -/

/-- The observable result of a done or rm run: exit code, stdout lines,
stderr lines, and the ordered log of service calls issued. -/
structure RunRes where
  exit : Nat
  out : List String
  err : List String
  calls : List SvcCall
deriving DecidableEq, Repr

/-- Is this call a DeleteTask mutation? -/
def isDeleteCall : SvcCall → Bool
  | .deleteTask _ _ => true
  | _ => false

/-- A Go runtime panic (negative slice index) aborts the process with exit
status 2.  Unreachable in these command bodies: both validate TaskNum >= 1
before invoking the locator, which keeps the locator's index
nonnegative. -/
def goPanicRes (log : List SvcCall) : RunRes :=
  ⟨2, [], ["panic: runtime error: index out of range"], log⟩

/-- The tail of DoneCmd.Run after the list is resolved (done.go lines
221-241): locate the task by number and complete it. -/
def doneFinish (quiet : Bool) (svc : Svc) (list : TaskList) (ref : TaskRef)
    (log : List SvcCall) : RunRes :=
  let log2 := log ++ [.listOpenTasks list.id (locPage ref.TaskNum)]
  match findTaskByNumber svc.listOpenTasks list.id ref.TaskNum with
  | .error (.outOfRange n) =>
    ⟨exitUserError, [], ["error: task number out of range: " ++ toString n], log2⟩
  | .error (.backend e) =>
    ⟨exitBackendError, [], ["error: backend error: " ++ e], log2⟩
  | .error (.indexPanic _) => goPanicRes log2
  | .ok task =>
    match svc.completeTask list.id task.id with
    | .error e =>
      ⟨exitBackendError, [], ["error: backend error: " ++ e],
        log2 ++ [.completeTask list.id task.id]⟩
    | .ok _ =>
      ⟨exitSuccess, if quiet then [] else ["ok"], [],
        log2 ++ [.completeTask list.id task.id]⟩

/-- DoneCmd.Run (done.go lines 160-242). -/
def doneRun (listName : String) (quiet : Bool) (svc : Svc) (args : List String) : RunRes :=
  match ParseTaskRef args with
  | .error .required => ⟨exitUserError, [], ["error: task reference required"], []⟩
  | .error (.invalid tok) =>
    ⟨exitUserError, [], ["error: invalid task reference: " ++ tok], []⟩
  | .ok ref =>
    if listName ≠ "" ∧ ref.HasLetter = true then
      ⟨exitUserError, [], ["error: cannot use both --list and list letter"], []⟩
    else if ref.TaskNum < 1 then
      ⟨exitUserError, [], ["error: task number out of range: " ++ toString ref.TaskNum], []⟩
    else if listName ≠ "" then
      match svc.resolveList listName with
      | .error e =>
        if goContains e "not found" then
          ⟨exitUserError, [], ["error: list not found: " ++ listName], [.resolveList listName]⟩
        else if goContains e "ambiguous" then
          ⟨exitUserError, [], ["error: ambiguous list name: " ++ listName],
            [.resolveList listName]⟩
        else
          ⟨exitBackendError, [], ["error: backend error: " ++ e], [.resolveList listName]⟩
      | .ok list => doneFinish quiet svc list ref [.resolveList listName]
    else if ref.HasLetter then
      match ResolveListByLetter svc ref.Letter with
      | (.error e, log) =>
        if goContains e "list letter not found" then
          ⟨exitUserError, [], ["error: list letter not found: " ++ String.singleton ref.Letter],
            log⟩
        else ⟨exitBackendError, [], ["error: backend error: " ++ e], log⟩
      | (.ok list, log) => doneFinish quiet svc list ref log
    else
      match svc.defaultList with
      | .error e => ⟨exitBackendError, [], ["error: backend error: " ++ e], [.defaultList]⟩
      | .ok list => doneFinish quiet svc list ref [.defaultList]

/-- The reference-resolution loop of RmCmd.Run (taskref.go lines 274-305):
resolve every reference to a (listID, taskID) target through the shared
page cache, deduplicating targets, stopping at the first failure.
`lookupID` is the per-reference list resolution (flag list, letter map, or
default list), which issues no service calls itself. -/
def rmResolveLoop (svc : Svc) (lookupID : TaskRef → Except (Nat × String) String)
    (cache : TaskPageCache) (seen : List String) (targets : List (String × String)) :
    List TaskRef → Except (Nat × String) (List (String × String)) × List SvcCall
  | [] => (.ok targets, [])
  | ref :: refs =>
    match lookupID ref with
    | .error fail => (.error fail, [])
    | .ok listID =>
      match findTaskByNumberCached svc.listOpenTasks listID ref.TaskNum cache with
      | (.error (.outOfRange n), _, fetched) =>
        (.error (exitUserError, "error: task number out of range: " ++ toString n),
          fetched.map (fun q => SvcCall.listOpenTasks q.1 q.2))
      | (.error (.backend e), _, fetched) =>
        (.error (exitBackendError, "error: backend error: " ++ e),
          fetched.map (fun q => SvcCall.listOpenTasks q.1 q.2))
      | (.error (.indexPanic _), _, fetched) =>
        (.error (2, "panic: runtime error: index out of range"),
          fetched.map (fun q => SvcCall.listOpenTasks q.1 q.2))
      | (.ok task, cache2, fetched) =>
        let key := listID ++ "\x00" ++ task.id
        let seen2 := if key ∈ seen then seen else key :: seen
        let targets2 := if key ∈ seen then targets else targets ++ [(listID, task.id)]
        let r := rmResolveLoop svc lookupID cache2 seen2 targets2 refs
        (r.1, fetched.map (fun q => SvcCall.listOpenTasks q.1 q.2) ++ r.2)

/-- The deletion loop of RmCmd.Run (taskref.go lines 307-312). -/
def rmDeleteLoop (svc : Svc) : List (String × String) →
    Except (Nat × String) Unit × List SvcCall
  | [] => (.ok (), [])
  | (listID, taskID) :: ts =>
    match svc.deleteTask listID taskID with
    | .error e =>
      (.error (exitBackendError, "error: backend error: " ++ e),
        [.deleteTask listID taskID])
    | .ok _ =>
      let r := rmDeleteLoop svc ts
      (r.1, .deleteTask listID taskID :: r.2)

/-- Resolution then deletion: the tail of RmCmd.Run once the list contexts
are in hand.  `log0` is the call log of the context-resolution phase. -/
def rmExecute (quiet : Bool) (svc : Svc)
    (lookupID : TaskRef → Except (Nat × String) String)
    (refs : List TaskRef) (log0 : List SvcCall) : RunRes :=
  match rmResolveLoop svc lookupID [] [] [] refs with
  | (.error (code, msg), log) => ⟨code, [], [msg], log0 ++ log⟩
  | (.ok targets, log) =>
    match rmDeleteLoop svc targets with
    | (.error (code, msg), dlog) => ⟨code, [], [msg], log0 ++ log ++ dlog⟩
    | (.ok _, dlog) =>
      ⟨exitSuccess, if quiet then [] else ["ok"], [], log0 ++ log ++ dlog⟩

/-- The Go zero value of service.TaskList (used when no default list is
needed). -/
def zeroTaskList : TaskList := ⟨"", "", false⟩

/-- The per-reference list resolution of the rm loop when no --list flag
was given: letter refs go through the letter map, the rest to the default
list. -/
def rmLookupByLetter (dl : TaskList) (m : List (Char × TaskList)) (ref : TaskRef) :
    Except (Nat × String) String :=
  if ref.HasLetter then
    match List.lookup ref.Letter m with
    | some list => .ok list.id
    | none =>
      .error (exitUserError, "error: list letter not found: " ++ String.singleton ref.Letter)
  else .ok dl.id

/-- The list-context resolution of RmCmd.Run (taskref.go lines 212-263):
default list when some reference lacks a letter, the letter map when some
reference has one, or the --list flag's list. -/
def rmContexts (listName : String) (quiet : Bool) (svc : Svc) (refs : List TaskRef)
    (hasLetter : Bool) : RunRes :=
  if listName = "" then
    let needsDefault := refs.any (fun r => !r.HasLetter)
    if needsDefault then
      match svc.defaultList with
      | .error e => ⟨exitBackendError, [], ["error: backend error: " ++ e], [.defaultList]⟩
      | .ok dl =>
        if hasLetter then
          match BuildListLetterMap svc with
          | (.error .tooMany, log) =>
            ⟨exitUserError, [], ["error: too many lists (max 26)"], .defaultList :: log⟩
          | (.error (.backend e), log) =>
            ⟨exitBackendError, [], ["error: backend error: " ++ e], .defaultList :: log⟩
          | (.ok m, log) =>
            rmExecute quiet svc (rmLookupByLetter dl m) refs (.defaultList :: log)
        else rmExecute quiet svc (rmLookupByLetter dl []) refs [.defaultList]
    else
      if hasLetter then
        match BuildListLetterMap svc with
        | (.error .tooMany, log) =>
          ⟨exitUserError, [], ["error: too many lists (max 26)"], log⟩
        | (.error (.backend e), log) =>
          ⟨exitBackendError, [], ["error: backend error: " ++ e], log⟩
        | (.ok m, log) =>
          rmExecute quiet svc (rmLookupByLetter zeroTaskList m) refs log
      else rmExecute quiet svc (rmLookupByLetter zeroTaskList []) refs []
  else
    match svc.resolveList listName with
    | .error e =>
      if goContains e "not found" then
        ⟨exitUserError, [], ["error: list not found: " ++ listName], [.resolveList listName]⟩
      else if goContains e "ambiguous" then
        ⟨exitUserError, [], ["error: ambiguous list name: " ++ listName],
          [.resolveList listName]⟩
      else ⟨exitBackendError, [], ["error: backend error: " ++ e], [.resolveList listName]⟩
    | .ok fl => rmExecute quiet svc (fun _ => .ok fl.id) refs [.resolveList listName]

/-- RmCmd.Run (taskref.go lines 178-318). -/
def rmRun (listName : String) (quiet : Bool) (svc : Svc) (args : List String) : RunRes :=
  match ParseTaskRefs args with
  | .error .required => ⟨exitUserError, [], ["error: task reference required"], []⟩
  | .error (.invalid tok) =>
    ⟨exitUserError, [], ["error: invalid task reference: " ++ tok], []⟩
  | .ok refs =>
    let hasLetter := refs.any (fun r => r.HasLetter)
    if listName ≠ "" ∧ hasLetter = true then
      ⟨exitUserError, [], ["error: cannot use both --list and list letter"], []⟩
    else
      match refs.find? (fun r => decide (r.TaskNum < 1)) with
      | some r =>
        ⟨exitUserError, [], ["error: task number out of range: " ++ toString r.TaskNum], []⟩
      | none => rmContexts listName quiet svc refs hasLetter

/-! ## The command registry

From the Registry embedded in src/internal/commands/login_logout_test.go
(lines 236-267): a map from every name and alias to its command. -/

/-- The registry-relevant identity of a command: its primary name and its
aliases (command.go's Command interface, restricted to the methods the
registry consults). -/
structure Command where
  name : String
  aliases : List String
deriving DecidableEq, Repr

/-- `r.cmds`: the name/alias → command map, as an association list.  Go map
assignment is modelled by consing the new binding in front; `Register` only
ever writes keys that are currently absent (or rewrites a key of the very
command being inserted with the same value), so lookups agree with the Go
map. -/
abbrev Registry : Type := List (String × Command)

/-- Registry.Find: look up a command by name or alias. -/
def regFind (r : Registry) (name : String) : Option Command :=
  List.lookup name r

/-- One Go map assignment `r.cmds[k] = c`. -/
def mapInsert (r : Registry) (k : String) (c : Command) : Registry :=
  (k, c) :: r

/-- The keys a command is registered under: its name and every alias. -/
def keysOf (c : Command) : List String := c.name :: c.aliases

/-- Insert all keys of `c`, name first then aliases in order. -/
def insertAll (r : Registry) (ks : List String) (c : Command) : Registry :=
  ks.foldl (fun m k => mapInsert m k c) r

/-- Registry.Register: fail if the primary name or any alias is already
registered (first collision reported), else map every key to the
command. -/
def Register (r : Registry) (c : Command) : Except String Registry :=
  if (regFind r c.name).isSome then
    .error ("command already registered: " ++ c.name)
  else
    match c.aliases.find? (fun a => (regFind r a).isSome) with
    | some a => .error ("command alias already registered: " ++ a)
    | none => .ok (insertAll r (keysOf c) c)

/-- Register a sequence of commands into `r`, keeping the old registry
when a registration fails. -/
def registerAllFrom (r : Registry) : List Command → Registry
  | [] => r
  | c :: cs =>
    registerAllFrom
      (match Register r c with
        | .ok r2 => r2
        | .error _ => r) cs

/-- The registry reached from empty after any sequence of registrations. -/
def registerAll (cs : List Command) : Registry := registerAllFrom [] cs

/-- `c` is registered in `r`: some key of `r` resolves to it. -/
def inRegistry (r : Registry) (c : Command) : Prop :=
  ∃ p ∈ r, regFind r p.1 = some c

/-- Every key resolving to a command is one of that command's keys, and
all of a registered command's keys resolve to it. -/
def RegWellFormed (r : Registry) : Prop :=
  ∀ k c, regFind r k = some c →
    k ∈ keysOf c ∧ ∀ k2 ∈ keysOf c, regFind r k2 = some c

/-! ## The dispatcher: flag parsing and auth gating

From src/internal/cli/dispatch.go (dispatchCommand).  The combined flag
set is modelled as a list of flag specifications; parsing mirrors Go's
flag.(*FlagSet).parseOne exactly. -/

/-- One registered flag of the combined per-invocation flag set: its name,
whether it is a boolean flag (boolean flags never consume a separate value
token), and its value validator (whether flag.Value.Set succeeds). -/
structure FlagSpec where
  name : String
  isBool : Bool
  setOk : String → Bool

/-- Failures of the single left-to-right flag-parsing pass (Go flag
package errors, as classified by dispatchCommand lines 89-120). -/
inductive FlagErr where
  /-- "bad flag syntax: %s". -/
  | badSyntax (tok : String)
  /-- "flag provided but not defined: -%s". -/
  | unknownFlag (name : String)
  /-- "flag needs an argument: -%s". -/
  | needsArg (name : String)
  /-- flag.Value.Set failed on the given value. -/
  | badValue (name value : String)
  /-- flag.ErrHelp for an undefined -h or -help. -/
  | helpRequested
deriving DecidableEq, Repr

/-- Result of examining one leading token, before any value token is
consumed. -/
inductive FlagTokenRes where
  /-- Not flag-shaped: parsing stops, the token stays positional. -/
  | stop
  /-- The bare "--" terminator: consumed, everything after is positional. -/
  | terminator
  | fail (e : FlagErr)
  /-- Flag fully handled by this token (bool flag, or name=value). -/
  | done
  /-- Non-boolean flag without inline value: must consume the next token. -/
  | needsValue (name : String) (ok : String → Bool)

/-- Go's stop condition `len(s) < 2 || s[0] != '-'`, negated: a token is
flag-shaped when it has at least two bytes and starts with '-'. -/
def flagShaped (s : String) : Bool := 2 ≤ s.toList.length && s.toList.head? = some '-'

/-- flag.(*FlagSet).parseOne applied to the leading token `s`. -/
def flagToken (specs : List FlagSpec) (s : String) : FlagTokenRes :=
  if flagShaped s = false then .stop
  else if s.toList.get? 1 = some '-' && s.toList.length = 2 then .terminator
  else
    let body :=
      if s.toList.get? 1 = some '-' then s.toList.drop 2 else s.toList.drop 1
    match body with
    | [] => .fail (.badSyntax s)
    | b0 :: brest =>
      if b0 = '-' || b0 = '=' then .fail (.badSyntax s)
      else
        let nameTail := brest.takeWhile (fun c => c ≠ '=')
        let eqRest := brest.drop nameTail.length
        let name := String.mk (b0 :: nameTail)
        let hasValue := eqRest ≠ []
        let value := String.mk (eqRest.drop 1)
        match specs.find? (fun sp => sp.name == name) with
        | none =>
          if name = "help" || name = "h" then .fail .helpRequested
          else .fail (.unknownFlag name)
        | some sp =>
          if sp.isBool then
            if hasValue then
              if sp.setOk value then .done else .fail (.badValue name value)
            else .done
          else
            if hasValue then
              if sp.setOk value then .done else .fail (.badValue name value)
            else .needsValue name sp.setOk

/-- fs.Parse: the single left-to-right pass over the tokens after the
command name.  Returns the positional arguments (fs.Args()) on success. -/
def fsParse (specs : List FlagSpec) : List String → Except FlagErr (List String)
  | [] => .ok []
  | s :: rest =>
    match flagToken specs s with
    | .stop => .ok (s :: rest)
    | .terminator => .ok rest
    | .fail e => .error e
    | .done => fsParse specs rest
    | .needsValue name ok =>
      match rest with
      | [] => .error (.needsArg name)
      | v :: rest2 => if ok v then fsParse specs rest2 else .error (.badValue name v)

/-- How dispatchCommand can fail before reaching the auth phase. -/
inductive DispatchErr where
  /-- fs.Parse returned an error (exit UserError). -/
  | flagFailure (e : FlagErr)
  /-- The first positional argument begins with '-' (dispatch.go lines
  122-127): "error: unknown flag: tok", exit UserError. -/
  | dashPositional (tok : String)
deriving DecidableEq, Repr

/-- The flag-parsing phase of dispatchCommand: fs.Parse plus the
first-positional dash check. -/
def dispatchParse (specs : List FlagSpec) (args : List String) :
    Except DispatchErr (List String) :=
  match fsParse specs args with
  | .error e => .error (.flagFailure e)
  | .ok positionals =>
    match positionals with
    | [] => .ok []
    | p :: _ =>
      if goStartsWith p "-" then .error (.dashPositional p)
      else .ok positionals

/-- The observable outcome of dispatchCommand: the exit code, whether the
command's Run body was invoked, and with which positional arguments. -/
structure DispatchOutcome where
  exit : Nat
  ranBody : Bool
  bodyArgs : List String
deriving DecidableEq, Repr

/-- dispatchCommand (dispatch.go lines 71-171): parse flags, check the
first positional, then gate on auth before invoking the body.  `factory`
is the optional service factory (its error is the factory's error string);
with no factory the oauth-client and token file checks apply.  Config
creation is out of core scope and modelled as always succeeding. -/
def dispatchCommand (specs : List FlagSpec) (needsAuth : Bool)
    (factory : Option (Except String Unit)) (hasOAuthClient hasToken : Bool)
    (bodyExit : List String → Nat) (args : List String) : DispatchOutcome :=
  match dispatchParse specs args with
  | .error _ => ⟨exitUserError, false, []⟩
  | .ok positionals =>
    if needsAuth then
      match factory with
      | some (.error e) =>
        if goContains e "token" || goContains e "auth" then ⟨exitAuthError, false, []⟩
        else ⟨exitBackendError, false, []⟩
      | some (.ok _) => ⟨bodyExit positionals, true, positionals⟩
      | none =>
        if hasOAuthClient = false then ⟨exitAuthError, false, []⟩
        else if hasToken = false then ⟨exitAuthError, false, []⟩
        else ⟨bodyExit positionals, true, positionals⟩
    else ⟨bodyExit positionals, true, positionals⟩

/-! ## Theorems: the paginated task locator (C1) -/

/-- Indexing the 100-wide page slice that contains absolute position `m` at
offset `m % 100` reads absolute position `m` of the full sequence. -/
theorem pageSlice_getElem (ts : List Task) (m : Nat) :
    ((ts.drop (m / 100 * 100)).take 100)[m % 100]? = ts[m]? := by
  rw [List.getElem?_take, if_pos (Nat.mod_lt _ (by norm_num)), List.getElem?_drop]
  congr 1
  omega

/-- Go's truncated division and remainder agree with the page/index
formulas on the nonnegative operands the locator sees for `num ≥ 1`. -/
theorem goDiv_goMod_of_nonneg (m : Nat) :
    goDiv (m : Int) pageSize = ((m / 100 : Nat) : Int) ∧
    goMod (m : Int) pageSize = ((m % 100 : Nat) : Int) := by
  constructor
  · show Int.tdiv (m : Int) 100 = _
    rw [Int.tdiv_eq_ediv (by positivity) (by norm_num)]
    omega
  · show Int.tmod (m : Int) 100 = _
    rw [Int.tmod_eq_emod (by positivity) (by norm_num)]
    omega

/-- Evaluating `openTasksPage` at the 1-based page holding position `m`. -/
theorem openTasksPage_succ (ts : List Task) (m : Nat) :
    openTasksPage ts (((m / 100 : Nat) : Int) + 1) =
      (ts.drop (m / 100 * 100)).take 100 := by
  have h1 : ¬ (((m / 100 : Nat) : Int) + 1 < 1) := by omega
  have h2 : ((((m / 100 : Nat) : Int) + 1).toNat - 1) = m / 100 := by omega
  rw [openTasksPage, if_neg h1, h2]

/-- The locator finds the task at any in-range positive position. -/
theorem findTaskByNumber_found (ts : List Task) (listID : String) (m : Nat)
    (hlt : m < ts.length) :
    findTaskByNumber (pureFetch ts) listID ((m : Int) + 1) = .ok (ts.get ⟨m, hlt⟩) := by
  have hdm := Nat.div_add_mod m 100
  have hml : m % 100 < 100 := Nat.mod_lt _ (by norm_num)
  have hsub : ((m : Int) + 1 - 1) = (m : Int) := by ring
  obtain ⟨hdiv, hmod⟩ := goDiv_goMod_of_nonneg m
  simp only [findTaskByNumber, pureFetch, pickTask, locPage, locIndex, hsub, hdiv, hmod,
    openTasksPage_succ]
  have hidx : m % 100 < ((ts.drop (m / 100 * 100)).take 100).length := by
    simp only [List.length_take, List.length_drop]
    omega
  rw [dif_neg (by simp only [List.length_take, List.length_drop]; push_cast; omega),
      dif_pos (by omega)]
  have htn2 : (((m % 100 : Nat) : Int)).toNat = m % 100 := by omega
  have key : ((ts.drop (m / 100 * 100)).take 100)[(((m % 100 : Nat) : Int)).toNat]? = ts[m]? := by
    rw [htn2]
    exact pageSlice_getElem ts m
  have hidx2 : (((m % 100 : Nat) : Int)).toNat < ((ts.drop (m / 100 * 100)).take 100).length := by
    rw [htn2]; exact hidx
  rw [List.getElem?_eq_getElem hidx2, List.getElem?_eq_getElem hlt] at key
  simp only [List.get_eq_getElem, Except.ok.injEq]
  exact Option.some.inj key

/-- The locator fails with the out-of-range error at any positive position
past the end of the list. -/
theorem findTaskByNumber_oor (ts : List Task) (listID : String) (m : Nat)
    (hge : ts.length ≤ m) :
    findTaskByNumber (pureFetch ts) listID ((m : Int) + 1) =
      .error (.outOfRange ((m : Int) + 1)) := by
  have hdm := Nat.div_add_mod m 100
  have hml : m % 100 < 100 := Nat.mod_lt _ (by norm_num)
  have hsub : ((m : Int) + 1 - 1) = (m : Int) := by ring
  obtain ⟨hdiv, hmod⟩ := goDiv_goMod_of_nonneg m
  simp only [findTaskByNumber, pureFetch, pickTask, locPage, locIndex, hsub, hdiv, hmod,
    openTasksPage_succ]
  rw [dif_pos (by simp only [List.length_take, List.length_drop]; push_cast; omega)]

/-- The empty cache holds nothing. -/
theorem cacheFind_nil (l : String) (p : Int) : cacheFind ([] : TaskPageCache) l p = none := rfl

/-- Lookup after a store: the stored key answers with the stored page,
every other key is unchanged. -/
theorem cacheFind_store (cache : TaskPageCache) (l : String) (p : Int)
    (tasks : List Task) (l' : String) (p' : Int) :
    cacheFind (cacheStore cache l p tasks) l' p' =
      if (l', p') = (l, p) then some tasks else cacheFind cache l' p' := by
  by_cases h : (l', p') = (l, p)
  · simp [cacheFind, cacheStore, List.lookup, beq_iff_eq, h]
  · have hb : ((l', p') == (l, p)) = false := by
      simp only [beq_eq_false_iff_ne, ne_eq]
      exact h
    simp [cacheFind, cacheStore, List.lookup, h, hb]

/-- One cached-locator call, relative to a consistent cache: it returns
exactly what the uncached locator returns, preserves consistency, fetches
only pages absent from the cache (and each at most once), never drops a
cache entry, and - unless the fetch itself failed - leaves every page it
fetched present in the cache. -/
theorem findTaskByNumberCached_spec (fetch : String → Int → Except String (List Task))
    (listID : String) (num : Int) (cache : TaskPageCache)
    (hc : CacheConsistent fetch cache) :
    (findTaskByNumberCached fetch listID num cache).1 = findTaskByNumber fetch listID num ∧
    CacheConsistent fetch (findTaskByNumberCached fetch listID num cache).2.1 ∧
    (∀ q ∈ (findTaskByNumberCached fetch listID num cache).2.2,
        cacheFind cache q.1 q.2 = none) ∧
    (∀ l p ts, cacheFind cache l p = some ts →
        cacheFind (findTaskByNumberCached fetch listID num cache).2.1 l p = some ts) ∧
    ((findTaskByNumberCached fetch listID num cache).2.2 = [] ∨
        (findTaskByNumberCached fetch listID num cache).2.2 = [(listID, locPage num)]) ∧
    (∀ q ∈ (findTaskByNumberCached fetch listID num cache).2.2,
        (cacheFind (findTaskByNumberCached fetch listID num cache).2.1 q.1 q.2).isSome ∨
        ∃ e, (findTaskByNumberCached fetch listID num cache).1 = .error (.backend e)) := by
  cases hfind : cacheFind cache listID (locPage num) with
  | some tasks =>
    have hfetch : fetch listID (locPage num) = .ok tasks := hc _ _ _ hfind
    have hr : findTaskByNumberCached fetch listID num cache = (pickTask num tasks, cache, []) := by
      simp only [findTaskByNumberCached, getPage, hfind]
    have hu : findTaskByNumber fetch listID num = pickTask num tasks := by
      simp only [findTaskByNumber, hfetch]
    rw [hr, hu]
    refine ⟨rfl, hc, ?_, ?_, .inl rfl, ?_⟩
    · intro q hq
      exact absurd hq (by simp)
    · intro l p ts h
      exact h
    · intro q hq
      exact absurd hq (by simp)
  | none =>
    cases hfetch : fetch listID (locPage num) with
    | error e =>
      have hr : findTaskByNumberCached fetch listID num cache =
          (.error (.backend e), cache, [(listID, locPage num)]) := by
        simp only [findTaskByNumberCached, getPage, hfind, hfetch]
      have hu : findTaskByNumber fetch listID num = .error (.backend e) := by
        simp only [findTaskByNumber, hfetch]
      rw [hr, hu]
      refine ⟨rfl, hc, ?_, ?_, .inr rfl, ?_⟩
      · intro q hq
        simp only [List.mem_singleton] at hq
        subst hq
        exact hfind
      · intro l p ts h
        exact h
      · intro q hq
        exact .inr ⟨e, rfl⟩
    | ok tasks =>
      have hr : findTaskByNumberCached fetch listID num cache =
          (pickTask num tasks, cacheStore cache listID (locPage num) tasks,
            [(listID, locPage num)]) := by
        simp only [findTaskByNumberCached, getPage, hfind, hfetch]
      have hu : findTaskByNumber fetch listID num = pickTask num tasks := by
        simp only [findTaskByNumber, hfetch]
      rw [hr, hu]
      refine ⟨rfl, ?_, ?_, ?_, .inr rfl, ?_⟩
      · intro l p ts h
        rw [cacheFind_store] at h
        by_cases hk : (l, p) = (listID, locPage num)
        · rw [if_pos hk] at h
          rw [Prod.mk.injEq] at hk
          obtain ⟨h1, h2⟩ := hk
          subst h1
          subst h2
          rw [Option.some.inj h] at hfetch
          exact hfetch
        · rw [if_neg hk] at h
          exact hc _ _ _ h
      · intro q hq
        simp only [List.mem_singleton] at hq
        subst hq
        exact hfind
      · intro l p ts h
        rw [cacheFind_store]
        have hk : ¬ ((l, p) = (listID, locPage num)) := by
          intro hk
          rw [Prod.mk.injEq] at hk
          obtain ⟨h1, h2⟩ := hk
          subst h1
          subst h2
          rw [hfind] at h
          exact Option.noConfusion h
        rw [if_neg hk]
        exact h
      · intro q hq
        simp only [List.mem_singleton] at hq
        subst hq
        left
        rw [cacheFind_store, if_pos rfl]
        rfl

/-- C1 (amended): for every list of `n` open tasks and every number `num ≥ 1`,
the locator computes page `(num-1)/100 + 1` and index `(num-1) mod 100`
(truncated division agreeing with the floor/mod formulas on these
nonnegative operands), succeeds returning the task at absolute position
`num` whenever `num ≤ n`, and fails with the out-of-range error whenever
`num > n`; the cached locator started on an empty cache returns the same
result.  For `num = 0` the locator does not produce the out-of-range error
(see the counterexample): callers reject `num < 1` before invoking it. -/
theorem locator_resolves_positions (ts : List Task) (listID : String) (num : Int)
    (h1 : 1 ≤ num) :
    (locPage num = Int.fdiv (num - 1) pageSize + 1 ∧
     locIndex num = (num - 1) % pageSize) ∧
    (∀ hle : num ≤ (ts.length : Int),
       findTaskByNumber (pureFetch ts) listID num =
         .ok (ts.get ⟨(num - 1).toNat, by omega⟩)) ∧
    ((ts.length : Int) < num →
       findTaskByNumber (pureFetch ts) listID num = .error (.outOfRange num)) ∧
    (findTaskByNumberCached (pureFetch ts) listID num []).1 =
       findTaskByNumber (pureFetch ts) listID num := by
  set m := (num - 1).toNat with hmdef
  have hnum : num = (m : Int) + 1 := by omega
  obtain ⟨hdiv, hmod⟩ := goDiv_goMod_of_nonneg m
  refine ⟨⟨?_, ?_⟩, ?_, ?_, ?_⟩
  · rw [hnum]
    show goDiv ((m : Int) + 1 - 1) pageSize + 1 = _
    rw [show ((m : Int) + 1 - 1) = (m : Int) by ring, hdiv,
      Int.fdiv_eq_ediv _ (by norm_num [pageSize])]
    show _ = (m : Int) / 100 + 1
    omega
  · rw [hnum]
    show goMod ((m : Int) + 1 - 1) pageSize = ((m : Int) + 1 - 1) % pageSize
    rw [show ((m : Int) + 1 - 1) = (m : Int) by ring, hmod]
    show _ = (m : Int) % 100
    omega
  · intro hle
    have hlt : m < ts.length := by omega
    have key := findTaskByNumber_found ts listID m hlt
    rw [← hnum] at key
    exact key
  · intro hgt
    have key := findTaskByNumber_oor ts listID m (by omega)
    rw [← hnum] at key
    exact key
  · have h := findTaskByNumberCached_spec (pureFetch ts) listID num []
      (by intro l p tsx h; exact absurd h (by rw [cacheFind_nil]; simp))
    exact h.1

/-- C1 counterexample: on a one-task list, at number 0 the locator computes
page 1 (Go truncation; the floor formula of the claim gives page 0) and
index -1, and its slice access panics: it does not fail with the
out-of-range error that the claim asserts for number 0. -/
theorem locator_zero_counterexample :
    findTaskByNumber (pureFetch [tMilk]) "default" 0 = .error (.indexPanic 0) ∧
    findTaskByNumber (pureFetch [tMilk]) "default" 0 ≠ .error (.outOfRange 0) ∧
    locPage 0 = 1 ∧ Int.fdiv (0 - 1) pageSize + 1 = 0 := by decide

/-- Witness for `locator_resolves_positions` at a concrete input. -/
theorem locator_resolves_positions_witness :
    (1 : Int) ≤ 2 ∧
    findTaskByNumber (pureFetch [tMilk, tBread]) "default" 2 = .ok tBread := by
  refine ⟨by norm_num, ?_⟩
  have h := (locator_resolves_positions [tMilk, tBread] "default" 2 (by norm_num)).2.1
    (by norm_num)
  rw [h]
  rfl

/-! ## Theorems: the page cache (C5) -/

/-- The resolution sequence relative to any consistent starting cache:
results equal the fresh uncached resolutions, consistency is preserved,
every fetched page was absent from the starting cache, no cache entry is
lost, and the fetch log never repeats a (listID, page) pair. -/
theorem resolveSeq_spec (fetch : String → Int → Except String (List Task))
    (qs : List (String × Int)) (cache : TaskPageCache)
    (hc : CacheConsistent fetch cache) :
    (resolveSeq fetch qs cache).1 = fetchSeqFresh fetch qs ∧
    CacheConsistent fetch (resolveSeq fetch qs cache).2.1 ∧
    (∀ q ∈ (resolveSeq fetch qs cache).2.2, cacheFind cache q.1 q.2 = none) ∧
    (∀ l p ts, cacheFind cache l p = some ts →
        cacheFind (resolveSeq fetch qs cache).2.1 l p = some ts) ∧
    ((resolveSeq fetch qs cache).2.2).Nodup := by
  induction qs generalizing cache with
  | nil =>
    exact ⟨rfl, hc, by simp [resolveSeq], fun l p ts h => h, by simp [resolveSeq]⟩
  | cons q qs ih =>
    obtain ⟨hstep1, hstep2, hstep3, hstep4, hstep5, hstep6⟩ :=
      findTaskByNumberCached_spec fetch q.1 q.2 cache hc
    cases hr : findTaskByNumberCached fetch q.1 q.2 cache with
    | mk res rest =>
      obtain ⟨cache2, log⟩ := rest
      rw [hr] at hstep1 hstep2 hstep3 hstep4 hstep5 hstep6
      simp only at hstep1 hstep2 hstep3 hstep4 hstep5 hstep6
      cases res with
      | error e =>
        have hres : resolveSeq fetch (q :: qs) cache = (.error e, cache2, log) := by
          simp only [resolveSeq, hr]
        have hfresh : fetchSeqFresh fetch (q :: qs) = .error e := by
          simp only [fetchSeqFresh, ← hstep1]
        rw [hres, hfresh]
        refine ⟨rfl, hstep2, hstep3, hstep4, ?_⟩
        rcases hstep5 with h | h <;> rw [h] <;> simp
      | ok t =>
        obtain ⟨ih1, ih2, ih3, ih4, ih5⟩ := ih cache2 hstep2
        cases hr2 : resolveSeq fetch qs cache2 with
        | mk res2 rest2 =>
          obtain ⟨cache3, log2⟩ := rest2
          rw [hr2] at ih1 ih2 ih3 ih4 ih5
          simp only at ih1 ih2 ih3 ih4 ih5
          have hlogmem : ∀ x ∈ log, cacheFind cache2 x.1 x.2 ≠ none := by
            intro x hx
            rcases hstep6 x hx with h | ⟨e, h⟩
            · intro hno
              rw [hno] at h
              exact Bool.noConfusion h
            · exact absurd h (by simp)
          have hdisj : ∀ x ∈ log, x ∉ log2 := by
            intro x hx hx2
            exact hlogmem x hx (ih3 x hx2)
          have hmem3 : ∀ x ∈ log ++ log2, cacheFind cache x.1 x.2 = none := by
            intro x hx
            rcases List.mem_append.mp hx with h | h
            · exact hstep3 x h
            · cases hfd : cacheFind cache x.1 x.2 with
              | none => rfl
              | some ts =>
                have := hstep4 x.1 x.2 ts hfd
                rw [ih3 x h] at this
                exact Option.noConfusion this
          have hnodup : (log ++ log2).Nodup := by
            rcases hstep5 with h | h
            · rw [h]
              simpa using ih5
            · rw [h]
              simp only [List.singleton_append, List.nodup_cons]
              refine ⟨?_, ih5⟩
              have := hdisj (q.1, locPage q.2) (by rw [h]; simp)
              simpa using this
          have hmono : ∀ l p ts, cacheFind cache l p = some ts →
              cacheFind cache3 l p = some ts := by
            intro l p ts h
            exact ih4 l p ts (hstep4 l p ts h)
          cases res2 with
          | error e2 =>
            have hres : resolveSeq fetch (q :: qs) cache = (.error e2, cache3, log ++ log2) := by
              simp only [resolveSeq, hr, hr2]
            have hfresh : fetchSeqFresh fetch (q :: qs) = .error e2 := by
              simp only [fetchSeqFresh, ← hstep1, ← ih1]
            rw [hres, hfresh]
            exact ⟨rfl, ih2, hmem3, hmono, hnodup⟩
          | ok ts2 =>
            have hres : resolveSeq fetch (q :: qs) cache =
                (.ok (t :: ts2), cache3, log ++ log2) := by
              simp only [resolveSeq, hr, hr2]
            have hfresh : fetchSeqFresh fetch (q :: qs) = .ok (t :: ts2) := by
              simp only [fetchSeqFresh, ← hstep1, ← ih1]
            rw [hres, hfresh]
            exact ⟨rfl, ih2, hmem3, hmono, hnodup⟩

/-- C5: starting from the empty per-invocation cache, a whole sequence of
reference resolutions sharing one page cache calls the backend at most once
per (listID, page) pair, and every resolution returns exactly the task a
fresh uncached fetch would return for the same number. -/
theorem pageCache_fetches_once (fetch : String → Int → Except String (List Task))
    (qs : List (String × Int)) :
    ((resolveSeq fetch qs []).2.2).Nodup ∧
    (resolveSeq fetch qs []).1 = fetchSeqFresh fetch qs := by
  have h := resolveSeq_spec fetch qs []
    (by intro l p ts h; exact absurd h (by rw [cacheFind_nil]; simp))
  exact ⟨h.2.2.2.2, h.1⟩

/-! ## Theorems: the reference parser (C4) -/

/-- Packaging of the parser invariant for a reference built from a
nonnegative parsed value. -/
theorem refInvariant_mk (c : Char) (n : Nat) (b : Bool)
    (h2 : b = false → c = Char.ofNat 0) (h3 : b = true → isLetter c = true) :
    refInvariant ⟨c, (n : Int), b⟩ :=
  ⟨Int.natCast_nonneg _, h2, h3⟩

/-- Every reference produced by the batch scanning loop satisfies the
parser-established invariant. -/
theorem parseRefsLoop_invariant (args : List String) :
    ∀ refs, parseRefsLoop args = .ok refs → ∀ ref ∈ refs, refInvariant ref := by
  induction args with
  | nil =>
    intro refs h ref hm
    rw [parseRefsLoop] at h
    cases Except.ok.inj h
    exact absurd hm (by simp)
  | cons a rest ih =>
    intro refs h ref hm
    unfold parseRefsLoop at h
    repeat' split at h
    all_goals try exact Except.noConfusion h
    all_goals cases Except.ok.inj h
    all_goals (
      rcases List.mem_cons.mp hm with rfl | hm2
      · first
          | exact refInvariant_mk _ _ _ (fun _ => rfl) (fun hc => nomatch hc)
          | exact refInvariant_mk _ _ _ (fun hc => nomatch hc) (fun _ => by assumption)
      · exact ih _ (by assumption) _ hm2)

/-- C4 (amended): every reference returned by ParseTaskRef (and every
element returned by ParseTaskRefs) has a nonnegative TaskNum, the zero rune
as Letter when HasLetter is false, and a lowercase letter when HasLetter is
true.  TaskNum ≥ 1 is not established by the parser - the token "0" parses
successfully with number 0 (see the counterexample); the `number >= 1`
invariant is enforced afterwards by the command bodies' `TaskNum < 1`
check. -/
theorem parser_ref_invariant (args : List String) :
    (∀ ref, ParseTaskRef args = .ok ref → refInvariant ref) ∧
    (∀ refs, ParseTaskRefs args = .ok refs → ∀ ref ∈ refs, refInvariant ref) := by
  constructor
  · intro ref h
    unfold ParseTaskRef at h
    repeat' split at h
    all_goals try exact Except.noConfusion h
    all_goals cases Except.ok.inj h
    all_goals first
      | exact refInvariant_mk _ _ _ (fun _ => rfl) (fun hc => nomatch hc)
      | exact refInvariant_mk _ _ _ (fun hc => nomatch hc) (fun _ => by assumption)
  · intro refs h
    unfold ParseTaskRefs at h
    split at h
    · exact Except.noConfusion h
    · exact parseRefsLoop_invariant args refs h

/-- C4 counterexample: the token "0" (and the lettered token "a0") is
parsed successfully with task number 0, violating the claimed
`TaskNum ≥ 1` invariant at the parser boundary. -/
theorem parser_accepts_zero :
    ParseTaskRef ["0"] = .ok ⟨Char.ofNat 0, 0, false⟩ ∧
    ParseTaskRefs ["a0"] = .ok [⟨'a', 0, true⟩] ∧
    ¬ (1 ≤ (0 : Int)) := by decide

/-- Witness for `parser_ref_invariant` at a concrete input. -/
theorem parser_ref_invariant_witness : refInvariant ⟨'b', 12, true⟩ :=
  (parser_ref_invariant ["b12"]).1 ⟨'b', 12, true⟩ (by decide)

/-! ## Theorems: the list-letter mapper (C2) -/

/-- Code points of the letter cursor within the range the mapper visits. -/
theorem charOfNat_toNat (i : Nat) (hi : i ≤ 27) : (Char.ofNat (97 + i)).toNat = 97 + i := by
  interval_cases i <;> decide

/-- The cursor passes 'z' exactly when more than 26 letters were consumed. -/
theorem char_z_lt (i : Nat) (hi : i ≤ 27) : ('z' < Char.ofNat (97 + i)) ↔ 25 < i := by
  interval_cases i <;> decide

/-- Rune increment on the cursor. -/
theorem nextChar_ofNat (i : Nat) (hi : i ≤ 26) :
    nextChar (Char.ofNat (97 + i)) = Char.ofNat (97 + (i + 1)) := by
  interval_cases i <;> decide

/-- Distinct cursor offsets give distinct letters. -/
theorem charOfNat_inj (i t : Nat) (hi : i ≤ 27) (ht : t ≤ 27) :
    Char.ofNat (97 + i) = Char.ofNat (97 + t) ↔ i = t := by
  constructor
  · intro h
    have h1 := charOfNat_toNat i hi
    have h2 := charOfNat_toNat t ht
    rw [h] at h1
    omega
  · intro h
    rw [h]

/-- Unfolding the letter sequence by one. -/
theorem letterRangeFrom_succ (i k : Nat) :
    letterRangeFrom i (k + 1) = Char.ofNat (97 + i) :: letterRangeFrom (i + 1) k := by
  unfold letterRangeFrom
  rw [List.range_succ_eq_map, List.map_cons, List.map_map, Nat.add_zero]
  congr 1
  apply List.map_congr_left
  intro j hj
  simp only [Function.comp_apply]
  congr 1
  omega

/-- The map-building loop, at cursor offset `i`, assigns the letters
'a'+i, 'a'+i+1, ... to the eligible lists in order, failing with the
too-many-lists sentinel as soon as the cursor would pass 'z'. -/
theorem buildLetterLoop_spec (hasOpen : String → Bool) (lists0 : List TaskList)
    (ls : List TaskList) (acc : List (Char × TaskList)) (i : Nat) (hi : i ≤ 26) :
    (buildLetterLoop (pureSvcLists lists0 hasOpen) (Char.ofNat (97 + i)) acc ls).1 =
      (if (eligibleLists ls hasOpen).length + i ≤ 26 then
        .ok (acc ++ (letterRangeFrom i (eligibleLists ls hasOpen).length).zip
              (eligibleLists ls hasOpen))
      else .error .tooMany) := by
  induction ls generalizing acc i with
  | nil =>
    rw [show eligibleLists ([] : List TaskList) hasOpen = [] from rfl]
    simp only [List.length_nil, Nat.zero_add]
    rw [if_pos hi]
    simp [buildLetterLoop, letterRangeFrom]
  | cons l ls ih =>
    by_cases hd : l.isDefault
    · have he : eligibleLists (l :: ls) hasOpen = eligibleLists ls hasOpen := by
        simp [eligibleLists, hd]
      rw [show (buildLetterLoop (pureSvcLists lists0 hasOpen) (Char.ofNat (97 + i)) acc
            (l :: ls)) = buildLetterLoop (pureSvcLists lists0 hasOpen)
            (Char.ofNat (97 + i)) acc ls by
          simp [buildLetterLoop, hd], he]
      exact ih acc i hi
    · by_cases ho : hasOpen l.id
      · have he : eligibleLists (l :: ls) hasOpen = l :: eligibleLists ls hasOpen := by
          simp [eligibleLists, hd, ho]
        by_cases h26 : 25 < i
        · have hi26 : i = 26 := by omega
          subst hi26
          have hz : 'z' < Char.ofNat (97 + 26) := (char_z_lt 26 (by norm_num)).mpr (by norm_num)
          have hr : (buildLetterLoop (pureSvcLists lists0 hasOpen) (Char.ofNat (97 + 26)) acc
              (l :: ls)).1 = .error .tooMany := by
            simp [buildLetterLoop, hd, pureSvcLists, ho, hz]
          rw [hr, he]
          rw [if_neg (by simp only [List.length_cons]; omega)]
        · have hz : ¬ ('z' < Char.ofNat (97 + i)) := by
            rw [char_z_lt i (by omega)]
            omega
          have hr : (buildLetterLoop (pureSvcLists lists0 hasOpen) (Char.ofNat (97 + i)) acc
              (l :: ls)).1 = (buildLetterLoop (pureSvcLists lists0 hasOpen)
                (nextChar (Char.ofNat (97 + i))) (acc ++ [(Char.ofNat (97 + i), l)])
                (l :: ls).tail).1 := by
            simp [buildLetterLoop, hd, pureSvcLists, ho, hz]
          rw [hr]
          simp only [List.tail_cons]
          rw [nextChar_ofNat i (by omega)]
          rw [ih (acc ++ [(Char.ofNat (97 + i), l)]) (i + 1) (by omega), he]
          simp only [List.length_cons, letterRangeFrom_succ, List.zip_cons_cons,
            List.append_assoc, List.singleton_append]
          have hcond : (eligibleLists ls hasOpen).length + (i + 1) ≤ 26 ↔
              (eligibleLists ls hasOpen).length + 1 + i ≤ 26 := by omega
          by_cases hc : (eligibleLists ls hasOpen).length + (i + 1) ≤ 26
          · rw [if_pos hc, if_pos (by omega)]
          · rw [if_neg hc, if_neg (by omega)]
      · have he : eligibleLists (l :: ls) hasOpen = eligibleLists ls hasOpen := by
          simp [eligibleLists, hd, ho]
        have hr : (buildLetterLoop (pureSvcLists lists0 hasOpen) (Char.ofNat (97 + i)) acc
            (l :: ls)).1 = (buildLetterLoop (pureSvcLists lists0 hasOpen)
              (Char.ofNat (97 + i)) acc ls).1 := by
          simp [buildLetterLoop, hd, pureSvcLists, ho]
        rw [hr, he]
        exact ih acc i hi

/-- The letter-not-found error value of the scanning lookup. -/
def letterNotFound (letter : Char) : Except String TaskList :=
  .error ("list letter not found: " ++ String.singleton letter)

/-- The scanning lookup loop, at cursor offset `i`, returns the
(t-i)-th eligible list for target letter 'a'+t, and the letter-not-found
error when the target sits before the cursor or past the eligible lists;
it never reports too-many-lists. -/
theorem resolveLetterLoop_spec (hasOpen : String → Bool) (lists0 : List TaskList)
    (ls : List TaskList) (t i : Nat) (ht : t ≤ 25) (hi : i ≤ 26) :
    (resolveLetterLoop (pureSvcLists lists0 hasOpen) (Char.ofNat (97 + t))
        (Char.ofNat (97 + i)) ls).1 =
      (if i ≤ t then
        match (eligibleLists ls hasOpen)[t - i]? with
        | some l => .ok l
        | none => letterNotFound (Char.ofNat (97 + t))
      else letterNotFound (Char.ofNat (97 + t))) := by
  induction ls generalizing i with
  | nil =>
    rw [show eligibleLists ([] : List TaskList) hasOpen = [] from rfl]
    have hr : (resolveLetterLoop (pureSvcLists lists0 hasOpen) (Char.ofNat (97 + t))
        (Char.ofNat (97 + i)) []).1 = letterNotFound (Char.ofNat (97 + t)) := rfl
    rw [hr]
    split
    · simp
    · rfl
  | cons l ls ih =>
    by_cases hd : l.isDefault
    · have he : eligibleLists (l :: ls) hasOpen = eligibleLists ls hasOpen := by
        simp [eligibleLists, hd]
      have hr : (resolveLetterLoop (pureSvcLists lists0 hasOpen) (Char.ofNat (97 + t))
          (Char.ofNat (97 + i)) (l :: ls)).1 =
          (resolveLetterLoop (pureSvcLists lists0 hasOpen) (Char.ofNat (97 + t))
            (Char.ofNat (97 + i)) ls).1 := by
        simp [resolveLetterLoop, hd]
      rw [hr, he]
      exact ih i hi
    · by_cases ho : hasOpen l.id
      · have he : eligibleLists (l :: ls) hasOpen = l :: eligibleLists ls hasOpen := by
          simp [eligibleLists, hd, ho]
        by_cases heq : i = t
        · subst heq
          have hr : (resolveLetterLoop (pureSvcLists lists0 hasOpen) (Char.ofNat (97 + i))
              (Char.ofNat (97 + i)) (l :: ls)).1 = .ok l := by
            simp [resolveLetterLoop, hd, pureSvcLists, ho]
          rw [hr, he]
          rw [if_pos (le_refl i)]
          simp
        · have hne : ¬ (Char.ofNat (97 + i) = Char.ofNat (97 + t)) := by
            rw [charOfNat_inj i t (by omega) (by omega)]
            exact heq
          by_cases h25 : 24 < i
          · have hz : 'z' < nextChar (Char.ofNat (97 + i)) := by
              rw [nextChar_ofNat i (by omega)]
              exact (char_z_lt (i + 1) (by omega)).mpr (by omega)
            have hr : (resolveLetterLoop (pureSvcLists lists0 hasOpen) (Char.ofNat (97 + t))
                (Char.ofNat (97 + i)) (l :: ls)).1 =
                letterNotFound (Char.ofNat (97 + t)) := by
              simp [resolveLetterLoop, hd, pureSvcLists, ho, hne, hz, letterNotFound]
            rw [hr, if_neg (by omega)]
          · have hz : ¬ ('z' < nextChar (Char.ofNat (97 + i))) := by
              rw [nextChar_ofNat i (by omega), char_z_lt (i + 1) (by omega)]
              omega
            have hr : (resolveLetterLoop (pureSvcLists lists0 hasOpen) (Char.ofNat (97 + t))
                (Char.ofNat (97 + i)) (l :: ls)).1 =
                (resolveLetterLoop (pureSvcLists lists0 hasOpen) (Char.ofNat (97 + t))
                  (nextChar (Char.ofNat (97 + i))) ls).1 := by
              simp [resolveLetterLoop, hd, pureSvcLists, ho, hne, hz]
            rw [hr, nextChar_ofNat i (by omega), ih (i + 1) (by omega), he]
            by_cases hle : i ≤ t
            · have hlt : i < t := by omega
              rw [if_pos hle, if_pos (by omega)]
              have hidx : t - i = (t - (i + 1)) + 1 := by omega
              rw [hidx, List.getElem?_cons_succ]
            · rw [if_neg hle, if_neg (by omega)]
      · have he : eligibleLists (l :: ls) hasOpen = eligibleLists ls hasOpen := by
          simp [eligibleLists, hd, ho]
        have hr : (resolveLetterLoop (pureSvcLists lists0 hasOpen) (Char.ofNat (97 + t))
            (Char.ofNat (97 + i)) (l :: ls)).1 =
            (resolveLetterLoop (pureSvcLists lists0 hasOpen) (Char.ofNat (97 + t))
              (Char.ofNat (97 + i)) ls).1 := by
          simp [resolveLetterLoop, hd, pureSvcLists, ho]
        rw [hr, he]
        exact ih i hi

/-- 'a' is the cursor's initial letter. -/
theorem char_a_eq : 'a' = Char.ofNat (97 + 0) := by decide

/-- C2 (amended): over any ordered list collection with `k` eligible
(non-default, has-open-tasks) lists, BuildListLetterMap assigns exactly the
letters 'a'..'a'+k-1 to the eligible lists in collection order when
k ≤ 26 and fails with the ErrTooManyLists sentinel when k ≥ 27; the
single-letter lookup path ResolveListByLetter returns the (t+1)-th eligible
list for letter 'a'+t (t ≤ 25) whenever it exists - regardless of k - and
the letter-not-found error otherwise.  Contrary to the claim, the lookup
path never fails with TooManyLists at k = 27 (see the counterexample). -/
theorem letter_mapper_assignments (lists : List TaskList) (hasOpen : String → Bool) :
    ((eligibleLists lists hasOpen).length ≤ 26 →
      (BuildListLetterMap (pureSvcLists lists hasOpen)).1 =
        .ok ((letterRangeFrom 0 (eligibleLists lists hasOpen).length).zip
          (eligibleLists lists hasOpen))) ∧
    (27 ≤ (eligibleLists lists hasOpen).length →
      (BuildListLetterMap (pureSvcLists lists hasOpen)).1 = .error .tooMany) ∧
    (∀ t : Nat, t ≤ 25 →
      (ResolveListByLetter (pureSvcLists lists hasOpen) (Char.ofNat (97 + t))).1 =
        match (eligibleLists lists hasOpen)[t]? with
        | some l => .ok l
        | none => letterNotFound (Char.ofNat (97 + t))) := by
  have hbuild : (BuildListLetterMap (pureSvcLists lists hasOpen)).1 =
      (buildLetterLoop (pureSvcLists lists hasOpen) 'a' [] lists).1 := by
    simp [BuildListLetterMap, pureSvcLists]
  have hb := buildLetterLoop_spec hasOpen lists lists [] 0 (by norm_num)
  rw [char_a_eq] at hbuild
  rw [hb] at hbuild
  refine ⟨?_, ?_, ?_⟩
  · intro hle
    rw [hbuild, if_pos (by omega)]
    simp
  · intro hge
    rw [hbuild, if_neg (by omega)]
  · intro t ht
    have hres : (ResolveListByLetter (pureSvcLists lists hasOpen) (Char.ofNat (97 + t))).1 =
        (resolveLetterLoop (pureSvcLists lists hasOpen) (Char.ofNat (97 + t)) 'a' lists).1 := by
      simp [ResolveListByLetter, pureSvcLists]
    rw [char_a_eq] at hres
    rw [resolveLetterLoop_spec hasOpen lists lists t 0 ht (by norm_num)] at hres
    rw [hres, if_pos (Nat.zero_le t)]
    rfl

/-- C2 counterexample: with 27 eligible lists, the map-building path fails
with ErrTooManyLists, but the single-letter lookup path succeeds for 'a'
(returning the first eligible list) instead of failing with TooManyLists
as the claim asserts for both paths. -/
theorem resolveLetter_27_lists :
    (eligibleLists lists27 (fun _ => true)).length = 27 ∧
    (BuildListLetterMap (pureSvcLists lists27 (fun _ => true))).1 = .error .tooMany ∧
    (ResolveListByLetter (pureSvcLists lists27 (fun _ => true)) 'a').1 =
      .ok ⟨"id0", "L0", false⟩ := by decide

/-- Witness for `letter_mapper_assignments` at a concrete collection:
default list skipped, one empty list skipped, two eligible lists lettered
'a' and 'b' in order; looking up 'b' returns the second eligible list. -/
theorem letter_mapper_assignments_witness :
    (BuildListLetterMap (pureSvcLists
        [⟨"d", "Default", true⟩, ⟨"s", "Shopping", false⟩, ⟨"e", "Empty", false⟩,
          ⟨"w", "Work", false⟩]
        (fun id => id ≠ "e"))).1 =
      .ok [('a', ⟨"s", "Shopping", false⟩), ('b', ⟨"w", "Work", false⟩)] ∧
    (ResolveListByLetter (pureSvcLists
        [⟨"d", "Default", true⟩, ⟨"s", "Shopping", false⟩, ⟨"e", "Empty", false⟩,
          ⟨"w", "Work", false⟩]
        (fun id => id ≠ "e")) 'b').1 = .ok ⟨"w", "Work", false⟩ := by
  have h := letter_mapper_assignments
    [⟨"d", "Default", true⟩, ⟨"s", "Shopping", false⟩, ⟨"e", "Empty", false⟩,
      ⟨"w", "Work", false⟩]
    (fun id => id ≠ "e")
  constructor
  · have h1 := h.1 (by decide)
    rw [h1]
    decide
  · have h3 := h.2.2 1 (by decide)
    rw [show 'b' = Char.ofNat (97 + 1) from by decide] at h3 ⊢
    rw [h3]
    decide

/-! ## Theorems: the command registry (C8) -/

/-- Lookup after one map assignment. -/
theorem lookup_mapInsert (r : Registry) (k : String) (c : Command) (k2 : String) :
    regFind (mapInsert r k c) k2 = if k2 = k then some c else regFind r k2 := by
  by_cases h : k2 = k
  · simp [regFind, mapInsert, List.lookup, h]
  · have hb : (k2 == k) = false := by
      simp only [beq_eq_false_iff_ne, ne_eq]
      exact h
    simp [regFind, mapInsert, List.lookup, h, hb]

/-- Lookup after assigning every key in `ks` to `c`. -/
theorem lookup_insertAll (ks : List String) (r : Registry) (c : Command) (k : String) :
    regFind (insertAll r ks c) k = if k ∈ ks then some c else regFind r k := by
  induction ks generalizing r with
  | nil => simp [insertAll]
  | cons k0 ks ih =>
    have hstep : insertAll r (k0 :: ks) c = insertAll (mapInsert r k0 c) ks c := rfl
    rw [hstep, ih, lookup_mapInsert]
    by_cases h1 : k ∈ ks <;> by_cases h2 : k = k0 <;> simp [h1, h2]

/-- What a successful Register did: all keys were absent, and the result
is the registry with every key of `c` assigned. -/
theorem Register_ok_conditions (r : Registry) (c : Command) (r2 : Registry)
    (h : Register r c = .ok r2) :
    (regFind r c.name).isSome = false ∧
    (∀ a ∈ c.aliases, (regFind r a).isSome = false) ∧
    r2 = insertAll r (keysOf c) c := by
  unfold Register at h
  by_cases h1 : (regFind r c.name).isSome = true
  · rw [if_pos h1] at h
    exact Except.noConfusion h
  · rw [if_neg h1] at h
    cases hf : c.aliases.find? (fun a => (regFind r a).isSome) with
    | some a =>
      rw [hf] at h
      exact Except.noConfusion h
    | none =>
      rw [hf] at h
      refine ⟨by simpa using h1, ?_, (Except.ok.inj h).symm⟩
      intro a ha
      have := List.find?_eq_none.mp hf a ha
      simpa using this

/-- Register fails exactly when the primary name or an alias is already
bound in the registry. -/
theorem Register_fails_iff (r : Registry) (c : Command) :
    (∃ msg, Register r c = .error msg) ↔
      ∃ k ∈ keysOf c, (regFind r k).isSome = true := by
  constructor
  · rintro ⟨msg, h⟩
    unfold Register at h
    by_cases h1 : (regFind r c.name).isSome = true
    · exact ⟨c.name, by simp [keysOf], h1⟩
    · rw [if_neg h1] at h
      cases hf : c.aliases.find? (fun a => (regFind r a).isSome) with
      | some a =>
        have hm := List.mem_of_find?_eq_some hf
        have hp := List.find?_some hf
        exact ⟨a, by simp [keysOf, hm], by simpa using hp⟩
      | none =>
        rw [hf] at h
        exact Except.noConfusion h
  · rintro ⟨k, hk, hsome⟩
    unfold Register
    by_cases h1 : (regFind r c.name).isSome = true
    · rw [if_pos h1]
      exact ⟨_, rfl⟩
    · rw [if_neg h1]
      cases hf : c.aliases.find? (fun a => (regFind r a).isSome) with
      | some a => exact ⟨_, rfl⟩
      | none =>
        exfalso
        rcases List.mem_cons.mp (by simpa [keysOf] using hk) with rfl | hka
        · exact h1 hsome
        · have := List.find?_eq_none.mp hf k hka
          simp [hsome] at this

/-- After a successful Register, Find resolves every key of `c` to `c`. -/
theorem Register_ok_lookup (r : Registry) (c : Command) (r2 : Registry)
    (h : Register r c = .ok r2) : ∀ k ∈ keysOf c, regFind r2 k = some c := by
  obtain ⟨_, _, rfl⟩ := Register_ok_conditions r c r2 h
  intro k hk
  rw [lookup_insertAll, if_pos hk]

/-- A successful Register preserves registry well-formedness. -/
theorem Register_preserves_wf (r : Registry) (c : Command) (r2 : Registry)
    (hwf : RegWellFormed r) (h : Register r c = .ok r2) : RegWellFormed r2 := by
  obtain ⟨hname, halias, rfl⟩ := Register_ok_conditions r c r2 h
  have habsent : ∀ k ∈ keysOf c, regFind r k = none := by
    intro k hk
    rcases List.mem_cons.mp (by simpa [keysOf] using hk) with rfl | hka
    · exact Option.not_isSome_iff_eq_none.mp (by simp [hname])
    · exact Option.not_isSome_iff_eq_none.mp (by simp [halias _ hka])
  intro k d hkd
  rw [lookup_insertAll] at hkd
  by_cases hkc : k ∈ keysOf c
  · rw [if_pos hkc] at hkd
    cases Option.some.inj hkd
    refine ⟨hkc, ?_⟩
    intro k2 hk2
    rw [lookup_insertAll, if_pos hk2]
  · rw [if_neg hkc] at hkd
    obtain ⟨hmem, hall⟩ := hwf k d hkd
    refine ⟨hmem, ?_⟩
    intro k2 hk2
    rw [lookup_insertAll]
    have hk2c : k2 ∉ keysOf c := by
      intro hc
      have hnone := habsent k2 hc
      rw [hall k2 hk2] at hnone
      exact Option.noConfusion hnone
    rw [if_neg hk2c]
    exact hall k2 hk2

/-- Registries built by any sequence of registrations are well-formed. -/
theorem registerAllFrom_wf (cs : List Command) :
    ∀ r, RegWellFormed r → RegWellFormed (registerAllFrom r cs) := by
  induction cs with
  | nil => exact fun r h => h
  | cons c cs ih =>
    intro r h
    cases hr : Register r c with
    | ok r2 =>
      have hstep : registerAllFrom r (c :: cs) = registerAllFrom r2 cs := by
        simp [registerAllFrom, hr]
      rw [hstep]
      exact ih r2 (Register_preserves_wf r c r2 h hr)
    | error e =>
      have hstep : registerAllFrom r (c :: cs) = registerAllFrom r cs := by
        simp [registerAllFrom, hr]
      rw [hstep]
      exact ih r h

/-- The empty registry is well-formed. -/
theorem emptyReg_wf : RegWellFormed ([] : Registry) := by
  intro k c h
  exact absurd h (by simp [regFind, List.lookup])

/-- C8: over any registry built from the empty one by a sequence of
registrations, Register(c) fails exactly when c's primary name or one of
its aliases is already bound; on success Find resolves c's name and every
alias to c; and no two distinct registered commands share a name or an
alias. -/
theorem registry_uniqueness (cs : List Command) (c : Command) :
    ((∃ msg, Register (registerAll cs) c = .error msg) ↔
      ∃ k ∈ keysOf c, (regFind (registerAll cs) k).isSome = true) ∧
    (∀ r2, Register (registerAll cs) c = .ok r2 →
      ∀ k ∈ keysOf c, regFind r2 k = some c) ∧
    (∀ c1 c2, inRegistry (registerAll cs) c1 → inRegistry (registerAll cs) c2 →
      c1 ≠ c2 → ∀ k, k ∈ keysOf c1 → k ∉ keysOf c2) := by
  have hwf : RegWellFormed (registerAll cs) := registerAllFrom_wf cs [] emptyReg_wf
  refine ⟨Register_fails_iff _ c, ?_, ?_⟩
  · intro r2 h
    exact Register_ok_lookup _ c r2 h
  · intro c1 c2 h1 h2 hne k hk1 hk2
    obtain ⟨p1, hp1, hf1⟩ := h1
    obtain ⟨p2, hp2, hf2⟩ := h2
    have a1 := (hwf _ _ hf1).2 k hk1
    have a2 := (hwf _ _ hf2).2 k hk2
    rw [a1] at a2
    exact hne (Option.some.inj a2)

/-- Witness for `registry_uniqueness` at a concrete registry. -/
theorem registry_uniqueness_witness :
    regFind (insertAll (registerAll [⟨"list", []⟩, ⟨"rm", ["remove"]⟩])
        (keysOf ⟨"done", ["d"]⟩) ⟨"done", ["d"]⟩) "d" = some ⟨"done", ["d"]⟩ ∧
    "remove" ∉ keysOf (⟨"list", ([] : List String)⟩ : Command) := by
  have h := registry_uniqueness [⟨"list", []⟩, ⟨"rm", ["remove"]⟩] ⟨"done", ["d"]⟩
  refine ⟨h.2.1 _ (by decide) "d" (by decide), ?_⟩
  exact h.2.2 ⟨"rm", ["remove"]⟩ ⟨"list", []⟩ (by unfold inRegistry; decide)
    (by unfold inRegistry; decide) (by decide) "remove" (by decide)

/-! ## Theorems: the dispatcher (C3, C6) -/

/-- Once a clean flag region has been consumed, parsing stops at the first
token that is not flag-shaped and returns it and everything after it
verbatim as the positional arguments. -/
theorem fsParse_clean_extend (specs : List FlagSpec) (p : String) (rest : List String)
    (hstop : flagToken specs p = .stop) :
    ∀ (n : Nat) (front : List String), front.length ≤ n → fsParse specs front = .ok [] →
      fsParse specs (front ++ p :: rest) = .ok (p :: rest) := by
  intro n
  induction n with
  | zero =>
    intro front hlen hok
    have hnil : front = [] := List.length_eq_zero.mp (by omega)
    subst hnil
    simp only [List.nil_append, fsParse, hstop]
  | succ n ih =>
    intro front hlen hok
    cases front with
    | nil => simp only [List.nil_append, fsParse, hstop]
    | cons s f2 =>
      rw [show ((s :: f2) ++ p :: rest) = s :: (f2 ++ p :: rest) from rfl]
      cases htok : flagToken specs s with
      | stop => simp [fsParse, htok] at hok
      | terminator =>
        simp only [fsParse, htok, Except.ok.injEq] at hok ⊢
        rw [hok, List.nil_append]
      | fail e => simp [fsParse, htok] at hok
      | done =>
        simp only [fsParse, htok] at hok ⊢
        exact ih f2 (by simp only [List.length_cons] at hlen; omega) hok
      | needsValue name ok2 =>
        simp only [fsParse, htok] at hok ⊢
        cases f2 with
        | nil => simp at hok
        | cons v f3 =>
          rw [show ((v :: f3) ++ p :: rest) = v :: (f3 ++ p :: rest) from rfl]
          dsimp only at hok ⊢
          by_cases hv : ok2 v = true
          · rw [if_pos hv] at hok ⊢
            exact ih f3 (by simp only [List.length_cons] at hlen; omega) hok
          · rw [if_neg hv] at hok
            exact Except.noConfusion hok

/-- C3 (amended): after any cleanly-consumed flag region, parsing stops at
the first token that is not flag-shaped; provided that token does not
itself begin with '-', it and every subsequent token - including tokens
beginning with '-' - are handed to the command body as positional
arguments, and in particular no UnknownFlag failure can arise from any
token at or after that point.  (When the first positional token does begin
with '-' - a lone "-", or a token exposed by the "--" terminator - the
dispatcher instead rejects it with the unknown-flag error and never invokes
the body; see the counterexample.) -/
theorem flag_parsing_stops_at_positional (specs : List FlagSpec) (front : List String)
    (p : String) (rest : List String) (bodyExit : List String → Nat)
    (hfront : fsParse specs front = .ok [])
    (hshape : flagShaped p = false)
    (hdash : goStartsWith p "-" = false) :
    dispatchParse specs (front ++ p :: rest) = .ok (p :: rest) ∧
    dispatchCommand specs false none true true bodyExit (front ++ p :: rest) =
      ⟨bodyExit (p :: rest), true, p :: rest⟩ := by
  have hstop : flagToken specs p = .stop := by
    simp [flagToken, hshape]
  have hp := fsParse_clean_extend specs p rest hstop front.length front le_rfl hfront
  have hd : dispatchParse specs (front ++ p :: rest) = .ok (p :: rest) := by
    simp only [dispatchParse, hp]
    rw [if_neg (by simp [hdash])]
  refine ⟨hd, ?_⟩
  simp [dispatchCommand, hd]

/-- C3 counterexample: with the tokens ["-", "5"], parsing stops at the
lone "-" (it is not flag-shaped), but the dispatcher then rejects it with
the unknown-flag error: the subsequent token "5" is never handed to the
command body, which is never invoked. -/
theorem lone_dash_rejected :
    flagShaped "-" = false ∧
    dispatchParse [] ["-", "5"] = .error (.dashPositional "-") ∧
    dispatchCommand [] false none true true (fun args => args.length) ["-", "5"] =
      ⟨exitUserError, false, []⟩ := by decide

/-- Witness for `flag_parsing_stops_at_positional` at a concrete input. -/
theorem flag_parsing_stops_witness :
    dispatchCommand [⟨"quiet", true, fun _ => true⟩] false none true true
      (fun args => args.length) (["--quiet"] ++ "5" :: ["-x"]) =
      ⟨2, true, "5" :: ["-x"]⟩ := by
  have h := flag_parsing_stops_at_positional [⟨"quiet", true, fun _ => true⟩]
    ["--quiet"] "5" ["-x"] (fun args => args.length) (by decide) (by decide) (by decide)
  exact h.2

/-- C6 (amended): for a command requiring auth, when the service factory
fails the command's Run body is never invoked; the exit code is the
authentication code 2 when the factory's error mentions "token" or "auth"
and the backend code 3 otherwise - not unconditionally 2 as the claim
states (see the counterexample). -/
theorem auth_gating_no_body (specs : List FlagSpec) (e : String)
    (hasO hasT : Bool) (bodyExit : List String → Nat) (args : List String)
    (ps : List String) (hparse : dispatchParse specs args = .ok ps) :
    dispatchCommand specs true (some (.error e)) hasO hasT bodyExit args =
      ⟨if goContains e "token" || goContains e "auth" then exitAuthError
        else exitBackendError, false, []⟩ := by
  simp only [dispatchCommand, hparse]
  by_cases hc : (goContains e "token" || goContains e "auth") = true
  · rw [if_pos hc, if_pos hc]
    simp
  · rw [if_neg hc, if_neg hc]
    simp

/-- C6 counterexample: a factory failure whose message mentions neither
"token" nor "auth" exits with the backend error code 3, not the
authentication code 2 asserted by the claim; the Run body is still never
invoked. -/
theorem factory_error_not_always_auth :
    dispatchCommand [] true (some (.error "connection refused")) true true
      (fun _ => exitSuccess) [] = ⟨exitBackendError, false, []⟩ ∧
    exitBackendError ≠ exitAuthError := by decide

/-- Witness for `auth_gating_no_body` at a concrete input. -/
theorem auth_gating_no_body_witness :
    dispatchCommand [] true (some (.error "token expired")) true true
      (fun _ => exitSuccess) [] = ⟨exitAuthError, false, []⟩ := by
  have h := auth_gating_no_body [] "token expired" true true (fun _ => exitSuccess)
    [] [] (by decide)
  rw [h]
  decide

/-! ## Theorems: the list-everything flow (C7) -/

/-- A default list does not consume a letter. -/
theorem countOpenNamed_cons_default (svc : Svc) (l : TaskList) (ls : List TaskList)
    (hd : l.isDefault = true) :
    countOpenNamed svc (l :: ls) = countOpenNamed svc ls := by
  simp [countOpenNamed, hd]

/-- A named list with no open tasks does not consume a letter. -/
theorem countOpenNamed_cons_empty (svc : Svc) (l : TaskList) (ls : List TaskList)
    (ts : List Task) (hd : l.isDefault = false)
    (hts : svc.listOpenTasks l.id 1 = .ok ts) (hlen : ts.isEmpty = true) :
    countOpenNamed svc (l :: ls) = countOpenNamed svc ls := by
  simp [countOpenNamed, hd, hts, hlen]

/-- A named list with open tasks consumes one letter. -/
theorem countOpenNamed_cons_open (svc : Svc) (l : TaskList) (ls : List TaskList)
    (ts : List Task) (hd : l.isDefault = false)
    (hts : svc.listOpenTasks l.id 1 = .ok ts) (hlen : ts.isEmpty = false) :
    countOpenNamed svc (l :: ls) = countOpenNamed svc ls + 1 := by
  simp [countOpenNamed, hd, hts, hlen]

/-- The named-lists loop, when a failing list is reached after a prefix of
lists that all fetch cleanly, emits exactly the rendering of that prefix
followed by the single failure line and the backend exit code. -/
theorem listAllLoop_fail (svc : Svc) (quiet : Bool) (fl : TaskList)
    (post : List TaskList) (e : String) (hnd : fl.isDefault = false)
    (hfl : svc.listOpenTasks fl.id 1 = .error e) :
    ∀ (pre : List TaskList) (i : Nat) (hasAny : Bool), i ≤ 26 →
      countOpenNamed svc pre + i ≤ 26 →
      (∀ x ∈ pre, x.isDefault = false → ∃ ts, svc.listOpenTasks x.id 1 = .ok ts) →
      listAllLoop svc quiet (Char.ofNat (97 + i)) hasAny (pre ++ fl :: post) =
        ⟨renderNamed svc (Char.ofNat (97 + i)) pre,
          ["error: failed to fetch list: " ++ fl.title ++ ": " ++ e],
          exitBackendError⟩ := by
  intro pre
  induction pre with
  | nil =>
    intro i hasAny hi hcount hpre
    simp only [List.nil_append]
    simp [listAllLoop, hnd, hfl, renderNamed]
  | cons l pre ih =>
    intro i hasAny hi hcount hpre
    by_cases hd : l.isDefault
    · have hc : countOpenNamed svc pre + i ≤ 26 := by
        rw [countOpenNamed_cons_default svc l pre hd] at hcount
        omega
      have h1 : listAllLoop svc quiet (Char.ofNat (97 + i)) hasAny ((l :: pre) ++ fl :: post)
          = listAllLoop svc quiet (Char.ofNat (97 + i)) hasAny (pre ++ fl :: post) := by
        simp [listAllLoop, hd]
      have h2 : renderNamed svc (Char.ofNat (97 + i)) (l :: pre) =
          renderNamed svc (Char.ofNat (97 + i)) pre := by
        simp [renderNamed, hd]
      rw [h1, h2]
      exact ih i hasAny hi hc (fun x hx => hpre x (List.mem_cons_of_mem l hx))
    · have hdf : l.isDefault = false := by simpa using hd
      obtain ⟨ts, hts⟩ := hpre l (List.mem_cons_self l pre) hdf
      cases hemp : ts.isEmpty with
      | true =>
        have hlen0 : ts.length = 0 := by
          rw [List.isEmpty_iff_length_eq_zero] at hemp
          exact hemp
        have hc : countOpenNamed svc pre + i ≤ 26 := by
          rw [countOpenNamed_cons_empty svc l pre ts hdf hts hemp] at hcount
          omega
        have h1 : listAllLoop svc quiet (Char.ofNat (97 + i)) hasAny
            ((l :: pre) ++ fl :: post)
            = listAllLoop svc quiet (Char.ofNat (97 + i)) hasAny (pre ++ fl :: post) := by
          simp [listAllLoop, hd, hdf, hts, hlen0]
        have h2 : renderNamed svc (Char.ofNat (97 + i)) (l :: pre) =
            renderNamed svc (Char.ofNat (97 + i)) pre := by
          simp [renderNamed, hdf, hts, hlen0]
        rw [h1, h2]
        exact ih i hasAny hi hc (fun x hx => hpre x (List.mem_cons_of_mem l hx))
      | false =>
        have hc : countOpenNamed svc pre + (i + 1) ≤ 26 := by
          rw [countOpenNamed_cons_open svc l pre ts hdf hts hemp] at hcount
          omega
        have hlen : ¬ (ts.length = 0) := by
          rw [← List.isEmpty_iff_length_eq_zero]
          simp [hemp]
        have hz : ¬ ('z' < Char.ofNat (97 + i)) := by
          rw [char_z_lt i (by omega)]
          omega
        have hrec := ih (i + 1) true (by omega) hc
          (fun x hx => hpre x (List.mem_cons_of_mem l hx))
        have h1 : listAllLoop svc quiet (Char.ofNat (97 + i)) hasAny
            ((l :: pre) ++ fl :: post) =
            ⟨(OutEvent.header l.title false ::
                ts.enum.map (fun p => OutEvent.taskWithLetter (Char.ofNat (97 + i))
                  (p.1 + 1) p.2)) ++
              (listAllLoop svc quiet (nextChar (Char.ofNat (97 + i))) true
                (pre ++ fl :: post)).out,
              (listAllLoop svc quiet (nextChar (Char.ofNat (97 + i))) true
                (pre ++ fl :: post)).err,
              (listAllLoop svc quiet (nextChar (Char.ofNat (97 + i))) true
                (pre ++ fl :: post)).exit⟩ := by
          simp [listAllLoop, hdf, hts, hlen, hz]
        have h2 : renderNamed svc (Char.ofNat (97 + i)) (l :: pre) =
            (OutEvent.header l.title false ::
              ts.enum.map (fun p => OutEvent.taskWithLetter (Char.ofNat (97 + i))
                (p.1 + 1) p.2)) ++
            renderNamed svc (nextChar (Char.ofNat (97 + i))) pre := by
          simp [renderNamed, hdf, hts, hlen]
        rw [h1, h2, nextChar_ofNat i (by omega), hrec]

/-- C7: in the list-everything flow, when fetching one named list fails
after the default list and a prefix of named lists were handled cleanly,
the stdout events are exactly the default-list lines followed by the full
rendering of the clean prefix (nothing already produced is discarded), the
failure is reported as a single error line on the error stream, and the
exit code is the backend-error code 3. -/
theorem listAll_preserves_partial_output (svc : Svc) (quiet : Bool)
    (dl : TaskList) (dts : List Task) (pre : List TaskList) (fl : TaskList)
    (post : List TaskList) (e : String)
    (hdl : svc.defaultList = .ok dl)
    (hdts : svc.listOpenTasks dl.id 1 = .ok dts)
    (hll : svc.listLists = .ok (pre ++ fl :: post))
    (hnd : fl.isDefault = false)
    (hfl : svc.listOpenTasks fl.id 1 = .error e)
    (hpre : ∀ x ∈ pre, x.isDefault = false → ∃ ts, svc.listOpenTasks x.id 1 = .ok ts)
    (hcount : countOpenNamed svc pre ≤ 26) :
    listAll svc quiet =
      ⟨dts.enum.map (fun p => OutEvent.task (p.1 + 1) p.2) ++ renderNamed svc 'a' pre,
        ["error: failed to fetch list: " ++ fl.title ++ ": " ++ e],
        exitBackendError⟩ := by
  have hloop := listAllLoop_fail svc quiet fl post e hnd hfl pre 0 (!dts.isEmpty)
    (by norm_num) (by omega) hpre
  simp only [listAll, hdl, hdts, hll]
  rw [char_a_eq, hloop]

/-- Witness for `listAll_preserves_partial_output` at a concrete
backend. -/
theorem listAll_preserves_partial_output_witness :
    listAll svcC7 false =
      ⟨[.task 1 tMilk, .header "Shopping" false, .taskWithLetter 'a' 1 tBread],
        ["error: failed to fetch list: Broken: boom"], exitBackendError⟩ := by
  have h := listAll_preserves_partial_output svcC7 false ⟨"d", "Default", true⟩ [tMilk]
    [⟨"d", "Default", true⟩, ⟨"s", "Shopping", false⟩] ⟨"x", "Broken", false⟩ [] "boom"
    (by decide) (by decide) (by decide) (by decide) (by decide)
    (by
      intro x hx hndx
      rcases List.mem_cons.mp hx with rfl | hx2
      · exact absurd hndx (by decide)
      · rcases List.mem_cons.mp hx2 with rfl | hx3
        · exact ⟨[tBread], by decide⟩
        · exact absurd hx3 (by simp))
    (by decide)
  rw [h]
  decide

/-! ## Theorems: done and rm mutual exclusion (C9) -/

/-- C9: with a non-empty --list flag and a parsed reference carrying a
list letter, both the rm and the done command fail with the
mutual-exclusion user error before issuing any task-source call (the call
log is empty). -/
theorem list_flag_letter_exclusive (listName : String) (quiet : Bool) (svc : Svc)
    (args : List String) (hname : listName ≠ "") :
    (∀ refs, ParseTaskRefs args = .ok refs →
      refs.any (fun r => r.HasLetter) = true →
      rmRun listName quiet svc args =
        ⟨exitUserError, [], ["error: cannot use both --list and list letter"], []⟩) ∧
    (∀ ref, ParseTaskRef args = .ok ref → ref.HasLetter = true →
      doneRun listName quiet svc args =
        ⟨exitUserError, [], ["error: cannot use both --list and list letter"], []⟩) := by
  constructor
  · intro refs hp hl
    simp only [rmRun, hp]
    rw [if_pos ⟨hname, hl⟩]
  · intro ref hp hl
    simp only [doneRun, hp]
    rw [if_pos ⟨hname, hl⟩]

/-- Witness for `list_flag_letter_exclusive` at a concrete input. -/
theorem list_flag_letter_exclusive_witness :
    rmRun "Work" false (pureSvcLists [] (fun _ => false)) ["a1"] =
      ⟨exitUserError, [], ["error: cannot use both --list and list letter"], []⟩ ∧
    doneRun "Work" false (pureSvcLists [] (fun _ => false)) ["a1"] =
      ⟨exitUserError, [], ["error: cannot use both --list and list letter"], []⟩ := by
  have h := list_flag_letter_exclusive "Work" false (pureSvcLists [] (fun _ => false))
    ["a1"] (by decide)
  exact ⟨h.1 [⟨'a', 1, true⟩] (by decide) (by decide),
    h.2 ⟨'a', 1, true⟩ (by decide) (by decide)⟩

/-! ## Theorems: rm resolves everything before deleting (C10) -/

/-- The resolution loop never issues a DeleteTask call. -/
theorem rmResolveLoop_no_delete (svc : Svc)
    (lookupID : TaskRef → Except (Nat × String) String) :
    ∀ (refs : List TaskRef) (cache : TaskPageCache) (seen : List String)
      (targets : List (String × String)),
      ∀ c ∈ (rmResolveLoop svc lookupID cache seen targets refs).2,
        isDeleteCall c = false := by
  intro refs
  induction refs with
  | nil =>
    intro cache seen targets c hc
    simp [rmResolveLoop] at hc
  | cons ref refs ih =>
    intro cache seen targets c hc
    simp only [rmResolveLoop] at hc
    cases hlook : lookupID ref with
    | error fail =>
      rw [hlook] at hc
      simp at hc
    | ok listID =>
      rw [hlook] at hc
      dsimp only at hc
      cases hfind : findTaskByNumberCached svc.listOpenTasks listID ref.TaskNum cache with
      | mk res rest =>
        obtain ⟨cache2, fetched⟩ := rest
        rw [hfind] at hc
        cases res with
        | error le =>
          cases le <;>
            (dsimp only at hc
             simp only [List.mem_map, Prod.exists] at hc
             obtain ⟨a, b, hab, rfl⟩ := hc
             rfl)
        | ok task =>
          dsimp only at hc
          simp only [List.mem_append, List.mem_map, Prod.exists] at hc
          rcases hc with ⟨a, b, hab, rfl⟩ | h2
          · rfl
          · exact ih cache2 _ _ c h2

/-- The deletion loop issues only DeleteTask calls. -/
theorem rmDeleteLoop_all_delete (svc : Svc) :
    ∀ (ts : List (String × String)), ∀ c ∈ (rmDeleteLoop svc ts).2,
      isDeleteCall c = true := by
  intro ts
  induction ts with
  | nil =>
    intro c hc
    simp [rmDeleteLoop] at hc
  | cons t ts ih =>
    intro c hc
    obtain ⟨listID, taskID⟩ := t
    simp only [rmDeleteLoop] at hc
    cases hdel : svc.deleteTask listID taskID with
    | error e =>
      rw [hdel] at hc
      simp only [List.mem_singleton] at hc
      subst hc
      rfl
    | ok u =>
      rw [hdel] at hc
      rcases List.mem_cons.mp (by simpa using hc) with rfl | h2
      · rfl
      · exact ih c h2

/-- A deletion-loop failure always carries the backend exit code. -/
theorem rmDeleteLoop_err_code (svc : Svc) :
    ∀ (ts : List (String × String)) (code : Nat) (msg : String),
      (rmDeleteLoop svc ts).1 = .error (code, msg) → code = exitBackendError := by
  intro ts
  induction ts with
  | nil =>
    intro code msg h
    simp [rmDeleteLoop] at h
  | cons t ts ih =>
    intro code msg h
    obtain ⟨listID, taskID⟩ := t
    simp only [rmDeleteLoop] at h
    cases hdel : svc.deleteTask listID taskID with
    | error e =>
      rw [hdel] at h
      simp only [Except.error.injEq, Prod.mk.injEq] at h
      exact h.1.symm
    | ok u =>
      rw [hdel] at h
      exact ih code msg h

/-- The map-building loop issues only HasOpenTasks calls. -/
theorem buildLetterLoop_no_delete (svc : Svc) :
    ∀ (ls : List TaskList) (letter : Char) (acc : List (Char × TaskList)),
      ∀ c ∈ (buildLetterLoop svc letter acc ls).2, isDeleteCall c = false := by
  intro ls
  induction ls with
  | nil =>
    intro letter acc c hc
    simp [buildLetterLoop] at hc
  | cons l ls ih =>
    intro letter acc c hc
    simp only [buildLetterLoop] at hc
    by_cases hd : l.isDefault
    · rw [if_pos hd] at hc
      exact ih letter acc c hc
    · rw [if_neg hd] at hc
      cases hho : svc.hasOpenTasks l.id with
      | error e =>
        rw [hho] at hc
        simp only [List.mem_singleton] at hc
        subst hc
        rfl
      | ok b =>
        rw [hho] at hc
        cases b with
        | false =>
          rcases List.mem_cons.mp (by simpa using hc) with rfl | h2
          · rfl
          · exact ih letter acc c h2
        | true =>
          by_cases hz : 'z' < letter
          · rw [if_pos hz] at hc
            simp only [List.mem_singleton] at hc
            subst hc
            rfl
          · rw [if_neg hz] at hc
            rcases List.mem_cons.mp (by simpa using hc) with rfl | h2
            · rfl
            · exact ih _ _ c h2

/-- BuildListLetterMap issues only ListLists and HasOpenTasks calls. -/
theorem BuildListLetterMap_no_delete (svc : Svc) :
    ∀ c ∈ (BuildListLetterMap svc).2, isDeleteCall c = false := by
  intro c hc
  simp only [BuildListLetterMap] at hc
  cases hl : svc.listLists with
  | error e =>
    rw [hl] at hc
    simp only [List.mem_singleton] at hc
    subst hc
    rfl
  | ok lists =>
    rw [hl] at hc
    rcases List.mem_cons.mp (by simpa using hc) with rfl | h2
    · rfl
    · exact buildLetterLoop_no_delete svc lists 'a' [] c h2

/-- The resolve-then-delete tail: a user-error exit can only come from the
resolution phase, before any DeleteTask call; and in every run the call
log splits into a deletion-free prefix followed by a deletion-only
suffix. -/
theorem rmExecute_split (quiet : Bool) (svc : Svc)
    (lookupID : TaskRef → Except (Nat × String) String) (refs : List TaskRef)
    (log0 : List SvcCall) (h0 : ∀ c ∈ log0, isDeleteCall c = false) :
    ((rmExecute quiet svc lookupID refs log0).exit = exitUserError →
      ∀ c ∈ (rmExecute quiet svc lookupID refs log0).calls, isDeleteCall c = false) ∧
    (∃ pre post, (rmExecute quiet svc lookupID refs log0).calls = pre ++ post ∧
      (∀ c ∈ pre, isDeleteCall c = false) ∧ (∀ c ∈ post, isDeleteCall c = true)) := by
  have hres0 := rmResolveLoop_no_delete svc lookupID refs [] [] []
  cases hres : rmResolveLoop svc lookupID [] [] [] refs with
  | mk res rlog =>
    rw [hres] at hres0
    simp only at hres0
    have hpre : ∀ c ∈ log0 ++ rlog, isDeleteCall c = false := by
      intro c hc
      rcases List.mem_append.mp hc with h | h
      · exact h0 c h
      · exact hres0 c h
    cases res with
    | error fail =>
      obtain ⟨code, msg⟩ := fail
      have hr : rmExecute quiet svc lookupID refs log0 = ⟨code, [], [msg], log0 ++ rlog⟩ := by
        simp [rmExecute, hres]
      rw [hr]
      exact ⟨fun _ => hpre, log0 ++ rlog, [], by simp, hpre, by simp⟩
    | ok targets =>
      have hdel0 := rmDeleteLoop_all_delete svc targets
      have hcode0 := rmDeleteLoop_err_code svc targets
      cases hdel : rmDeleteLoop svc targets with
      | mk dres dlog =>
        rw [hdel] at hdel0
        simp only at hdel0
        cases dres with
        | error fail =>
          obtain ⟨code, msg⟩ := fail
          have hcode : code = exitBackendError := by
            apply hcode0 code msg
            rw [hdel]
          have hr : rmExecute quiet svc lookupID refs log0 =
              ⟨code, [], [msg], log0 ++ rlog ++ dlog⟩ := by
            simp [rmExecute, hres, hdel]
          rw [hr]
          refine ⟨?_, log0 ++ rlog, dlog, by simp, hpre, hdel0⟩
          intro h
          rw [show (⟨code, [], [msg], log0 ++ rlog ++ dlog⟩ : RunRes).exit = code from rfl,
            hcode] at h
          exact absurd h (by decide)
        | ok u =>
          have hr : rmExecute quiet svc lookupID refs log0 =
              ⟨exitSuccess, if quiet then [] else ["ok"], [], log0 ++ rlog ++ dlog⟩ := by
            simp [rmExecute, hres, hdel]
          rw [hr]
          refine ⟨?_, log0 ++ rlog, dlog, by simp, hpre, hdel0⟩
          intro h
          exact absurd (show exitSuccess = exitUserError from h) (by decide)

/-- A run whose whole call log is deletion-free satisfies both parts of
the no-deletion property. -/
theorem runres_no_delete_split (res : RunRes)
    (h : ∀ c ∈ res.calls, isDeleteCall c = false) :
    (res.exit = exitUserError → ∀ c ∈ res.calls, isDeleteCall c = false) ∧
    (∃ pre post, res.calls = pre ++ post ∧ (∀ c ∈ pre, isDeleteCall c = false) ∧
      (∀ c ∈ post, isDeleteCall c = true)) :=
  ⟨fun _ => h, res.calls, [], by simp, h, by simp⟩

/-- The list-context phase of rm followed by resolution and deletion:
user-error exits never follow a DeleteTask call, and every call log splits
into a deletion-free prefix and a deletion-only suffix. -/
theorem rmContexts_split (listName : String) (quiet : Bool) (svc : Svc)
    (refs : List TaskRef) (hasLetter : Bool) :
    ((rmContexts listName quiet svc refs hasLetter).exit = exitUserError →
      ∀ c ∈ (rmContexts listName quiet svc refs hasLetter).calls,
        isDeleteCall c = false) ∧
    (∃ pre post, (rmContexts listName quiet svc refs hasLetter).calls = pre ++ post ∧
      (∀ c ∈ pre, isDeleteCall c = false) ∧ (∀ c ∈ post, isDeleteCall c = true)) := by
  by_cases hn : listName = ""
  · cases hndef : refs.any (fun r => !r.HasLetter) with
    | true =>
      cases hdl : svc.defaultList with
      | error e =>
        have hr : rmContexts listName quiet svc refs hasLetter =
            ⟨exitBackendError, [], ["error: backend error: " ++ e], [.defaultList]⟩ := by
          simp [rmContexts, hn, hndef, hdl]
        rw [hr]
        exact runres_no_delete_split _ (by
          intro c hc
          simp only [List.mem_singleton] at hc
          subst hc
          rfl)
      | ok dl =>
        cases hasLetter with
        | true =>
          cases hb : BuildListLetterMap svc with
          | mk bres blog =>
            have hblog : ∀ c ∈ blog, isDeleteCall c = false := by
              have hnb := BuildListLetterMap_no_delete svc
              rw [hb] at hnb
              simpa using hnb
            have hcons : ∀ c ∈ (SvcCall.defaultList :: blog), isDeleteCall c = false := by
              intro c hc
              rcases List.mem_cons.mp hc with rfl | h
              · rfl
              · exact hblog c h
            cases bres with
            | error be =>
              cases be with
              | tooMany =>
                have hr : rmContexts listName quiet svc refs true =
                    ⟨exitUserError, [], ["error: too many lists (max 26)"],
                      .defaultList :: blog⟩ := by
                  simp [rmContexts, hn, hndef, hdl, hb]
                rw [hr]
                exact runres_no_delete_split _ hcons
              | backend e =>
                have hr : rmContexts listName quiet svc refs true =
                    ⟨exitBackendError, [], ["error: backend error: " ++ e],
                      .defaultList :: blog⟩ := by
                  simp [rmContexts, hn, hndef, hdl, hb]
                rw [hr]
                exact runres_no_delete_split _ hcons
            | ok m =>
              have hr : rmContexts listName quiet svc refs true =
                  rmExecute quiet svc (rmLookupByLetter dl m) refs
                    (.defaultList :: blog) := by
                simp [rmContexts, hn, hndef, hdl, hb]
              rw [hr]
              exact rmExecute_split quiet svc _ refs _ hcons
        | false =>
          have hr : rmContexts listName quiet svc refs false =
              rmExecute quiet svc (rmLookupByLetter dl []) refs [.defaultList] := by
            simp [rmContexts, hn, hndef, hdl]
          rw [hr]
          exact rmExecute_split quiet svc _ refs _ (by
            intro c hc
            simp only [List.mem_singleton] at hc
            subst hc
            rfl)
    | false =>
      cases hasLetter with
      | true =>
        cases hb : BuildListLetterMap svc with
        | mk bres blog =>
          have hblog : ∀ c ∈ blog, isDeleteCall c = false := by
            have hnb := BuildListLetterMap_no_delete svc
            rw [hb] at hnb
            simpa using hnb
          cases bres with
          | error be =>
            cases be with
            | tooMany =>
              have hr : rmContexts listName quiet svc refs true =
                  ⟨exitUserError, [], ["error: too many lists (max 26)"], blog⟩ := by
                simp [rmContexts, hn, hndef, hb]
              rw [hr]
              exact runres_no_delete_split _ hblog
            | backend e =>
              have hr : rmContexts listName quiet svc refs true =
                  ⟨exitBackendError, [], ["error: backend error: " ++ e], blog⟩ := by
                simp [rmContexts, hn, hndef, hb]
              rw [hr]
              exact runres_no_delete_split _ hblog
          | ok m =>
            have hr : rmContexts listName quiet svc refs true =
                rmExecute quiet svc (rmLookupByLetter zeroTaskList m) refs blog := by
              simp [rmContexts, hn, hndef, hb]
            rw [hr]
            exact rmExecute_split quiet svc _ refs _ hblog
      | false =>
        have hr : rmContexts listName quiet svc refs false =
            rmExecute quiet svc (rmLookupByLetter zeroTaskList []) refs [] := by
          simp [rmContexts, hn, hndef]
        rw [hr]
        exact rmExecute_split quiet svc _ refs _ (by intro c hc; simp at hc)
  · cases hres : svc.resolveList listName with
    | error e =>
      have hone : ∀ c ∈ [SvcCall.resolveList listName], isDeleteCall c = false := by
        intro c hc
        simp only [List.mem_singleton] at hc
        subst hc
        rfl
      by_cases h1 : goContains e "not found" = true
      · have hr : rmContexts listName quiet svc refs hasLetter =
            ⟨exitUserError, [], ["error: list not found: " ++ listName],
              [.resolveList listName]⟩ := by
          simp [rmContexts, hn, hres, h1]
        rw [hr]
        exact runres_no_delete_split _ hone
      · by_cases h2 : goContains e "ambiguous" = true
        · have hr : rmContexts listName quiet svc refs hasLetter =
              ⟨exitUserError, [], ["error: ambiguous list name: " ++ listName],
                [.resolveList listName]⟩ := by
            simp [rmContexts, hn, hres, h1, h2]
          rw [hr]
          exact runres_no_delete_split _ hone
        · have hr : rmContexts listName quiet svc refs hasLetter =
              ⟨exitBackendError, [], ["error: backend error: " ++ e],
                [.resolveList listName]⟩ := by
            simp [rmContexts, hn, hres, h1, h2]
          rw [hr]
          exact runres_no_delete_split _ hone
    | ok fl =>
      have hr : rmContexts listName quiet svc refs hasLetter =
          rmExecute quiet svc (fun _ => .ok fl.id) refs [.resolveList listName] := by
        simp [rmContexts, hn, hres]
      rw [hr]
      exact rmExecute_split quiet svc _ refs _ (by
        intro c hc
        simp only [List.mem_singleton] at hc
        subst hc
        rfl)

/-- C10: the batch rm command resolves every parsed reference before
issuing any deletion.  Whenever a run exits with the user-error code (in
particular: invalid reference, task number out of range, or unknown list
letter) its call log contains no DeleteTask call at all; and in every run
the call log is a deletion-free resolution prefix followed by a
deletion-only suffix. -/
theorem rm_resolves_before_deleting (listName : String) (quiet : Bool) (svc : Svc)
    (args : List String) :
    ((rmRun listName quiet svc args).exit = exitUserError →
      ∀ c ∈ (rmRun listName quiet svc args).calls, isDeleteCall c = false) ∧
    (∃ pre post, (rmRun listName quiet svc args).calls = pre ++ post ∧
      (∀ c ∈ pre, isDeleteCall c = false) ∧ (∀ c ∈ post, isDeleteCall c = true)) := by
  cases hp : ParseTaskRefs args with
  | error pe =>
    cases pe with
    | required =>
      have hr : rmRun listName quiet svc args =
          ⟨exitUserError, [], ["error: task reference required"], []⟩ := by
        simp [rmRun, hp]
      rw [hr]
      exact runres_no_delete_split _ (by intro c hc; simp at hc)
    | invalid tok =>
      have hr : rmRun listName quiet svc args =
          ⟨exitUserError, [], ["error: invalid task reference: " ++ tok], []⟩ := by
        simp [rmRun, hp]
      rw [hr]
      exact runres_no_delete_split _ (by intro c hc; simp at hc)
  | ok refs =>
    by_cases hex : listName ≠ "" ∧ (refs.any fun r => r.HasLetter) = true
    · have hr : rmRun listName quiet svc args =
          ⟨exitUserError, [], ["error: cannot use both --list and list letter"], []⟩ := by
        simp only [rmRun, hp]
        rw [if_pos hex]
      rw [hr]
      exact runres_no_delete_split _ (by intro c hc; simp at hc)
    · cases hfind : refs.find? (fun r => decide (r.TaskNum < 1)) with
      | some r =>
        have hr : rmRun listName quiet svc args =
            ⟨exitUserError, [],
              ["error: task number out of range: " ++ toString r.TaskNum], []⟩ := by
          simp only [rmRun, hp]
          rw [if_neg hex]
          simp only [hfind]
        rw [hr]
        exact runres_no_delete_split _ (by intro c hc; simp at hc)
      | none =>
        have hr : rmRun listName quiet svc args =
            rmContexts listName quiet svc refs (refs.any fun r => r.HasLetter) := by
          simp only [rmRun, hp]
          rw [if_neg hex]
          simp only [hfind]
        rw [hr]
        exact rmContexts_split listName quiet svc refs _

/-- Witness for `rm_resolves_before_deleting`: a run that fails with the
out-of-range user error makes only resolution calls. -/
theorem rm_resolves_before_deleting_witness :
    ∀ c ∈ (rmRun "" false svcC7 ["5"]).calls, isDeleteCall c = false := by
  have h := rm_resolves_before_deleting "" false svcC7 ["5"]
  exact h.1 (by decide)

end GTask
